import Mathlib

/-!
Verification of the hgland autonomous task-execution engine
(`src/unnamed/part_006`, the agent POST route).

The TypeScript source is shallowly embedded: pure functions become Lean
functions; the per-invocation mutable state of the step loop becomes an
explicit `EngineState` threaded through recursion; the opaque language-model
calls become an `Oracle` input supplying the parsed model responses; the two
impure generators (`Date.now()+random` ids and the image network call) are
drawn from an `Env` input with explicit counters.  `Math.round(100*s/t)` on
the floating-point ratio is embedded as round-half-up on the exact rational,
written with natural-number division.
-/

namespace Hgland

/-- Chat roles of `ChatMessage` (`'user' | 'assistant' | 'system'`). -/
inductive Role where
  | user
  | assistant
  | system
deriving DecidableEq, Repr

/-- `interface ChatMessage`. -/
structure ChatMessage where
  role : Role
  content : String
deriving DecidableEq, Repr

/-- Step status union `'pending' | 'in_progress' | 'completed' | 'failed' | 'skipped'`. -/
inductive StepStatus where
  | pending
  | inProgress
  | completed
  | failed
  | skipped
deriving DecidableEq, Repr

/-- `interface FileItem` (the `children` field is never read by the engine
or the reducer and is omitted; `type` is the `'file' | 'folder'` tag). -/
structure FileItem where
  id : String
  name : String
  type : String
  content : Option String
  path : String
deriving DecidableEq, Repr

/-- Package record produced by the `install_package` tool. -/
structure PackageInfo where
  name : String
  version : String
  installed : Bool
  isDev : Bool
deriving DecidableEq, Repr

/-- One generated image as collected by `processToolResults`. -/
structure GeneratedImage where
  filename : String
  base64Data : String
deriving DecidableEq, Repr

/-- The `result : unknown` payload of a `ToolResult`.  Each constructor is the
record built by the corresponding `executeToolCall` case; `nullPayload` is the
`result: null` of every failure branch; `errorInfo` represents an arbitrary
record carrying an `error` field (readable by `evaluateStep`, though the
engine's own failure results are always `null`). -/
inductive ToolPayload where
  | createFile (file : FileItem)
  | editFile (fileId newContent : String) (newFilename : Option String)
  | deleteFile (fileId : String)
  | installPackage (pkg : PackageInfo)
  | runTerminal (command output : String)
  | generateImage (filename base64Data : String)
  | readFile (fileId filename : String) (content : Option String)
  | listFiles (entries : List (String × String × String × String))
  | completeStep (stepId outcome : String)
  | nullPayload
  | errorInfo (error : String)
deriving DecidableEq, Repr

/-- `interface ToolResult`. -/
structure ToolResult where
  tool : String
  success : Bool
  result : ToolPayload
  stepId : String
deriving DecidableEq, Repr

/-- The `evaluation` record attached to a `PlanStep`. -/
structure StepEvaluation where
  success : Bool
  score : Nat
  issues : List String
deriving DecidableEq, Repr

/-- `interface PlanStep`. -/
structure PlanStep where
  id : String
  description : String
  action : String
  toolsNeeded : List String
  dependencies : List String
  expectedOutcome : String
  status : StepStatus
  actualOutcome : Option String
  retryCount : Nat
  toolResults : List ToolResult
  evaluation : Option StepEvaluation
deriving DecidableEq, Repr

/-- Complexity union `'simple' | 'moderate' | 'complex'`. -/
inductive Complexity where
  | simple
  | moderate
  | complex
deriving DecidableEq, Repr

/-- `interface ExecutionPlan`. -/
structure ExecutionPlan where
  goal : String
  analysis : String
  complexity : Complexity
  steps : List PlanStep
  proactiveEnhancements : List String
  estimatedTools : Nat
deriving DecidableEq, Repr

/-- `Math.round((num / den) * 100)` for natural counts: round-half-up of the
exact rational `100 * num / den`, i.e. `⌊(100*num + den/2) / den⌋`, written
with natural division (at `den = 0` JS yields `NaN`; the engine never divides
by zero because plans and scored tool-result lists are non-empty there). -/
def roundPct (num den : Nat) : Nat :=
  (200 * num + den) / (2 * den)

/-- The message used by `evaluateStep` for a failed tool:
`` `${result.tool} failed: ${errorResult?.error || 'Unknown error'}` ``. -/
def failureIssue (r : ToolResult) : String :=
  r.tool ++ " failed: " ++
    (match r.result with
     | .errorInfo e => if e = "" then "Unknown error" else e
     | _ => "Unknown error")

/-- `function evaluateStep(step)` — local deterministic scoring of one step
attempt.  The `for`-loop that pushes one issue per failed result is written
as `filter` + `map`. -/
def evaluateStep (step : PlanStep) : StepEvaluation :=
  if step.toolResults.length = 0 then
    ⟨false, 0, ["No tool executions for this step"]⟩
  else
    let successCount := (step.toolResults.filter (fun r => r.success)).length
    let failCount := (step.toolResults.filter (fun r => !r.success)).length
    let score := roundPct successCount step.toolResults.length
    let issues := (step.toolResults.filter (fun r => !r.success)).map failureIssue
    ⟨failCount == 0 && decide (0 < successCount), score, issues⟩

/-- `function createDefaultPlan(goal)` — the deterministic fallback plan. -/
def createDefaultPlan (goal : String) : ExecutionPlan :=
  { goal := goal
    analysis := "Direct execution"
    complexity := .simple
    steps := [{ id := "step_1"
                description := goal
                action := "Execute the requested task"
                toolsNeeded := ["create_file"]
                dependencies := []
                expectedOutcome := "Task completed"
                status := .pending
                actualOutcome := none
                retryCount := 0
                toolResults := []
                evaluation := none }]
    proactiveEnhancements := []
    estimatedTools := 1 }

/-- The normalization applied to every model-supplied step
(`status: 'pending', retryCount: 0, toolResults: []`). -/
def normalizeStep (step : PlanStep) : PlanStep :=
  { step with status := .pending, retryCount := 0, toolResults := [] }

/-- `generateStrategicPlan` with the model call made explicit: `none` stands
for a failed call / unparsable response (the `catch` branch), and a parsed
plan whose `steps` field is missing is represented by the empty list (both
take the `createDefaultPlan` branch in the source). -/
def generateStrategicPlan (goal : String) (modelPlan : Option ExecutionPlan) :
    ExecutionPlan :=
  match modelPlan with
  | none => createDefaultPlan goal
  | some plan =>
    if plan.steps.isEmpty then createDefaultPlan goal
    else { plan with steps := plan.steps.map normalizeStep }

/-- The `{goalAchieved, completeness, gaps, suggestions}` record of the
Outcome Verifier. -/
structure OutcomeEval where
  goalAchieved : Bool
  completeness : Nat
  gaps : List String
  suggestions : List String
deriving DecidableEq, Repr

/-- The deterministic fallback computed in the `catch` branch of
`evaluateOverallOutcome` (`completedSteps`, `totalSteps` and
`basicCompleteness` are computed before the model call in the source). -/
def outcomeFallback (plan : ExecutionPlan) : OutcomeEval :=
  let completedSteps := (plan.steps.filter (fun s => s.status == .completed)).length
  let totalSteps := plan.steps.length
  { goalAchieved := completedSteps == totalSteps
    completeness := roundPct completedSteps totalSteps
    gaps := (plan.steps.filter (fun s => s.status == .failed)).map (fun s => s.description)
    suggestions := [] }

/-- `evaluateOverallOutcome` with the model call made explicit: `some e` is a
successful call returning parsed JSON `e`, `none` is the `catch` branch.  The
file manifest and goal only feed the prompt text, which the opaque model
consumes. -/
def evaluateOverallOutcome (plan : ExecutionPlan) (_currentFiles : List FileItem)
    (_originalGoal : String) (modelEval : Option OutcomeEval) : OutcomeEval :=
  match modelEval with
  | some e => e
  | none => outcomeFallback plan

/-- JS `arr.slice(-n)`: the last `n` elements; `slice(-0)` is the whole
array. -/
def sliceLast {α : Type} (l : List α) (n : Nat) : List α :=
  if n = 0 then l else l.drop (l.length - n)

/-- The summary-point loop of `compactContext`: a `user` turn sets
`currentTopic` to its first 100 characters; an `assistant` turn with a truthy
(non-empty) `currentTopic` emits one point and resets it. -/
def buildSummaryPoints : List ChatMessage → String → List String
  | [], _ => []
  | m :: rest, currentTopic =>
    if m.role = .user then
      buildSummaryPoints rest (m.content.take 100)
    else if m.role = .assistant ∧ currentTopic ≠ "" then
      ("- \"" ++ currentTopic ++ "...\" → " ++ m.content.take 150 ++ "...") ::
        buildSummaryPoints rest ""
    else
      buildSummaryPoints rest currentTopic

/-- The content of the synthetic summary message built from the older
prefix. -/
def summaryContent (olderMessages : List ChatMessage) : String :=
  "[CONTEXT SUMMARY]\n" ++
    String.intercalate "\n" (sliceLast (buildSummaryPoints olderMessages "") 10) ++
    "\n[END SUMMARY]"

/-- `function compactContext(messages, maxMessages = 20)`.  The recent-suffix
size is `Math.floor(maxMessages * 0.7)`; at the only call site
`maxMessages = 20` the IEEE product `20 * 0.7` is exactly `14`, which equals
the natural-number expression `7 * maxMessages / 10` used here. -/
def compactContext (messages : List ChatMessage) (maxMessages : Nat) :
    List ChatMessage :=
  if messages.length ≤ maxMessages then messages
  else
    let recentCount := 7 * maxMessages / 10
    let recentMessages := sliceLast messages recentCount
    let olderMessages := messages.take (messages.length - recentMessages.length)
    let summary : ChatMessage := ⟨.system, summaryContent olderMessages⟩
    summary :: recentMessages

/-- The impure generators of the route, made explicit: `freshIds n` is the
`n`-th `Date.now().toString() + Math.random().toString(36).slice(2)` id, and
`imageData n` is the outcome of the `n`-th image network call (`some b64` for
a response carrying data, `none` for a thrown error or empty `data`). -/
structure Env where
  freshIds : Nat → String
  imageData : Nat → Option String

/-- The parsed arguments of one requested tool call (constructor = tool
name); `unknownTool` is any name outside the catalogue, hitting the
`default` branch of `executeToolCall`. -/
inductive ToolCall where
  | generateImage (prompt filename size : String)
  | createFile (filename content path : String)
  | editFile (fileId newContent newFilename : String)
  | deleteFile (fileId filename : String)
  | runTerminal (command : String)
  | installPackage (packageName version : String) (isDev : Bool)
  | readFile (fileId : String)
  | listFiles
  | completeStep (stepId outcome : String)
  | unknownTool (name : String)
deriving DecidableEq, Repr

/-- The tool name a `ToolCall` was requested under. -/
def toolCallName : ToolCall → String
  | .generateImage .. => "generate_image"
  | .createFile .. => "create_file"
  | .editFile .. => "edit_file"
  | .deleteFile .. => "delete_file"
  | .runTerminal .. => "run_terminal"
  | .installPackage .. => "install_package"
  | .readFile .. => "read_file"
  | .listFiles => "list_files"
  | .completeStep .. => "complete_step"
  | .unknownTool n => n

/-- The mock terminal-output table of the `run_terminal` case. -/
def mockTerminalOutput (command : String) : String :=
  if command = "npm run build" then "✓ Compiled successfully\n✓ Build completed"
  else if command = "npm run dev" then "✓ Ready on http://localhost:3000"
  else if command = "npm test" then "✓ All tests passed"
  else if command.startsWith "npm install" then "added 1 package in 2.1s"
  else "Executed: " ++ command

/-- Result of `executeToolCall`: the success flag, the payload stored into
the `ToolResult` (`nullPayload` on failure: the source stores `result.result`
and drops the separate `error` string), and the advanced id / image-call
counters. -/
structure ToolExecResult where
  success : Bool
  payload : ToolPayload
  idCalls : Nat
  imgCalls : Nat
deriving Repr

/-- `async function executeToolCall(toolName, args, currentFiles)`. -/
def executeToolCall (env : Env) (call : ToolCall) (currentFiles : List FileItem)
    (idCalls imgCalls : Nat) : ToolExecResult :=
  match call with
  | .generateImage _ filename _ =>
    match env.imageData imgCalls with
    | none => ⟨false, .nullPayload, idCalls, imgCalls + 1⟩
    | some b64 => ⟨true, .generateImage filename b64, idCalls, imgCalls + 1⟩
  | .createFile filename content path =>
    let path0 := if path = "" then "/" else path
    let fullPath := if path0 = "/" then "/" ++ filename else path0 ++ "/" ++ filename
    ⟨true, .createFile ⟨env.freshIds idCalls, filename, "file", some content, fullPath⟩,
      idCalls + 1, imgCalls⟩
  | .editFile fileId newContent newFilename =>
    match currentFiles.find? (fun f => f.id == fileId) with
    | none => ⟨false, .nullPayload, idCalls, imgCalls⟩
    | some _ =>
      ⟨true, .editFile fileId newContent
          (if newFilename = "" then none else some newFilename),
        idCalls, imgCalls⟩
  | .deleteFile fileId _ => ⟨true, .deleteFile fileId, idCalls, imgCalls⟩
  | .runTerminal command =>
    ⟨true, .runTerminal command (mockTerminalOutput command), idCalls, imgCalls⟩
  | .installPackage packageName version isDev =>
    let version0 := if version = "" then "latest" else version
    ⟨true, .installPackage ⟨packageName, version0, true, isDev⟩, idCalls, imgCalls⟩
  | .readFile fileId =>
    match currentFiles.find? (fun f => f.id == fileId) with
    | some f => ⟨true, .readFile fileId f.name f.content, idCalls, imgCalls⟩
    | none => ⟨false, .nullPayload, idCalls, imgCalls⟩
  | .listFiles =>
    ⟨true, .listFiles (currentFiles.map (fun f => (f.id, f.name, f.path, f.type))),
      idCalls, imgCalls⟩
  | .completeStep stepId outcome => ⟨true, .completeStep stepId outcome, idCalls, imgCalls⟩
  | .unknownTool _ => ⟨false, .nullPayload, idCalls, imgCalls⟩

/-- The accumulator of `processToolResults`: `updatedFiles`, the
`createdFilePaths` set, the three collected output lists, and the id-draw
counter for the fresh ids of generated-image files. -/
structure ReducerState where
  files : List FileItem
  createdFilePaths : List String
  packages : List PackageInfo
  terminalOutput : List String
  generatedImages : List GeneratedImage
  idCalls : Nat
deriving Repr

/-- The `switch (result.action)` of the `processToolResults` loop body.
`edit_file`/`delete_file` act on the first file whose id matches
(`findIndex`); payload kinds outside the `switch` fall through unchanged. -/
def applyPayload (env : Env) (st : ReducerState) : ToolPayload → ReducerState
  | .createFile file =>
    if st.files.any (fun f => f.path == file.path)
        || st.createdFilePaths.contains file.path then st
    else
      { st with createdFilePaths := st.createdFilePaths ++ [file.path]
                files := st.files ++ [file] }
  | .editFile fileId newContent newFilename =>
    match st.files.findIdx? (fun f => f.id == fileId) with
    | some idx =>
      match st.files[idx]? with
      | some f =>
        let newName :=
          match newFilename with
          | some nf => if nf = "" then f.name else nf
          | none => f.name
        { st with files :=
            st.files.set idx { f with content := some newContent, name := newName } }
      | none => st
    | none => st
  | .deleteFile fileId =>
    match st.files.findIdx? (fun f => f.id == fileId) with
    | some idx => { st with files := st.files.eraseIdx idx }
    | none => st
  | .installPackage pkg => { st with packages := st.packages ++ [pkg] }
  | .runTerminal _ output => { st with terminalOutput := st.terminalOutput ++ [output] }
  | .generateImage filename b64 =>
    let imagePath := "/images/" ++ filename
    if st.files.any (fun f => f.path == imagePath) then st
    else
      { st with
        generatedImages := st.generatedImages ++ [⟨filename, b64⟩]
        files := st.files ++
          [⟨env.freshIds st.idCalls, filename, "file",
            some ("data:image/png;base64," ++ b64), imagePath⟩]
        idCalls := st.idCalls + 1 }
  | _ => st

/-- One iteration of the `for (const call of toolCalls)` loop of
`processToolResults`: a failed call (or, inside `applyPayload`, a `null`
result) leaves the state unchanged. -/
def applyToolResult (env : Env) (st : ReducerState) (call : ToolResult) :
    ReducerState :=
  if !call.success then st
  else applyPayload env st call.result

/-- The loop of `processToolResults` over the batch. -/
def runReducer (env : Env) : List ToolResult → ReducerState → ReducerState
  | [], st => st
  | c :: rest, st => runReducer env rest (applyToolResult env st c)

/-- `function processToolResults(toolCalls, currentFiles)`; every invocation
starts with a fresh `createdFilePaths` set and fresh output lists.  `idCalls`
threads the impure id source. -/
def processToolResults (env : Env) (toolCalls : List ToolResult)
    (currentFiles : List FileItem) (idCalls : Nat) : ReducerState :=
  runReducer env toolCalls ⟨currentFiles, [], [], [], [], idCalls⟩

/-- `const maxRetries = 2` (per step). -/
def maxRetries : Nat := 2

/-- `const maxIterationsPerStep = 5` (per step). -/
def maxIterationsPerStep : Nat := 5

/-- One item of `response.output` as consumed by the step loop: a requested
tool call with parsed arguments, or an assistant message whose `output_text`
parts are appended to `finalResponse`.  Item kinds outside these two branches
of the source are ignored there and are therefore not represented. -/
inductive OutputItem where
  | functionCall (call : ToolCall)
  | message (texts : List String)
deriving Repr

/-- The opaque step-executor model: `responses k` is the parsed output of the
model round-trip made when `totalIterations = k` was about to be incremented
(one call per attempt, in order). -/
structure Oracle where
  responses : Nat → List OutputItem

/-- `interface ExecutionState` merged with the per-invocation locals of the
POST step loop (`currentFiles`, `allToolResults`, `totalIterations`,
`finalResponse`) and the two impure-draw counters. -/
structure EngineState where
  steps : List PlanStep
  currentStepIndex : Nat
  completedSteps : List String
  failedSteps : List String
  skippedSteps : List String
  evaluationsPassed : Nat
  evaluationsFailed : Nat
  currentFiles : List FileItem
  allToolResults : List ToolResult
  totalIterations : Nat
  finalResponse : String
  idCalls : Nat
  imgCalls : Nat
deriving Repr

/-- One entry of `stepAttemptHistory`. -/
structure AttemptRecord where
  attempt : Nat
  results : List ToolResult
  success : Bool
deriving DecidableEq, Repr

/-- The state of the `while` attempt loop for one step: the engine state,
the step being mutated in place, and the loop locals. -/
structure StepLoopState where
  engine : EngineState
  step : PlanStep
  stepCompleted : Bool
  stepIterations : Nat
  history : List AttemptRecord
deriving Repr

/-- Accumulator of the `for (const item of response.output)` loop. -/
structure ItemState where
  step : PlanStep
  currentFiles : List FileItem
  finalResponse : String
  signaled : Bool
  idCalls : Nat
  imgCalls : Nat
deriving Repr

/-- Whether the call is `complete_step` (the explicit completion signal). -/
def isCompleteStepCall : ToolCall → Bool
  | .completeStep .. => true
  | _ => false

/-- The `outcome` argument of a `complete_step` call. -/
def completeOutcome : ToolCall → Option String
  | .completeStep _ outcome => some outcome
  | _ => none

/-- One iteration of the response-item loop: execute the tool call, record
the `ToolResult`, fold a successful result into the workspace through
`processToolResults`, and note an explicit `complete_step` signal. -/
def processItem (env : Env) (st : ItemState) : OutputItem → ItemState
  | .functionCall call =>
    let r := executeToolCall env call st.currentFiles st.idCalls st.imgCalls
    let toolResult : ToolResult := ⟨toolCallName call, r.success, r.payload, st.step.id⟩
    let step := { st.step with toolResults := st.step.toolResults ++ [toolResult] }
    let red :=
      if r.success then
        let p := processToolResults env [toolResult] st.currentFiles r.idCalls
        (p.files, p.idCalls)
      else (st.currentFiles, r.idCalls)
    let step :=
      if isCompleteStepCall call && r.success then
        { step with actualOutcome := completeOutcome call }
      else step
    { step := step
      currentFiles := red.1
      finalResponse := st.finalResponse
      signaled := st.signaled || (isCompleteStepCall call && r.success)
      idCalls := red.2
      imgCalls := r.imgCalls }
  | .message texts =>
    { st with finalResponse := texts.foldl (fun a b => a ++ b) st.finalResponse }

/-- One pass of the attempt `while` body: clear `toolResults`, make the model
round-trip, process the returned items, and — when the step signaled
completion or any tool ran — evaluate, record history, and update status /
`retryCount`. -/
def runOneAttempt (env : Env) (oracle : Oracle) (ls : StepLoopState) : StepLoopState :=
  let stepIterations := ls.stepIterations + 1
  let totalIterations := ls.engine.totalIterations + 1
  let clearedStep := { ls.step with toolResults := [] }
  let items := oracle.responses ls.engine.totalIterations
  let r := items.foldl (processItem env)
    ⟨clearedStep, ls.engine.currentFiles, ls.engine.finalResponse, false,
      ls.engine.idCalls, ls.engine.imgCalls⟩
  let engine0 := { ls.engine with
    currentFiles := r.currentFiles
    finalResponse := r.finalResponse
    idCalls := r.idCalls
    imgCalls := r.imgCalls
    totalIterations := totalIterations }
  if r.signaled || r.step.toolResults.length != 0 then
    let evaluation := evaluateStep r.step
    let step := { r.step with evaluation := some evaluation }
    let history := ls.history ++ [⟨stepIterations, step.toolResults, evaluation.success⟩]
    let engine1 := { engine0 with allToolResults := engine0.allToolResults ++ step.toolResults }
    if evaluation.success then
      { engine := { engine1 with
          completedSteps := engine1.completedSteps ++ [step.id]
          evaluationsPassed := engine1.evaluationsPassed + 1 }
        step := { step with status := .completed }
        stepCompleted := true
        stepIterations := stepIterations
        history := history }
    else
      let step := { step with retryCount := step.retryCount + 1 }
      if maxRetries < step.retryCount then
        { engine := { engine1 with
            failedSteps := engine1.failedSteps ++ [step.id]
            evaluationsFailed := engine1.evaluationsFailed + 1 }
          step := { step with status := .failed }
          stepCompleted := true
          stepIterations := stepIterations
          history := history }
      else
        { engine := engine1
          step := step
          stepCompleted := ls.stepCompleted
          stepIterations := stepIterations
          history := history }
  else
    { engine := engine0
      step := r.step
      stepCompleted := ls.stepCompleted
      stepIterations := stepIterations
      history := ls.history }

/-- The attempt `while` loop, with the `stepIterations < maxIterationsPerStep`
conjunct of the guard realized as fuel (the loop starts at
`stepIterations = 0` with fuel `maxIterationsPerStep`). -/
def attemptLoop (env : Env) (oracle : Oracle) : Nat → StepLoopState → StepLoopState
  | 0, ls => ls
  | fuel + 1, ls =>
    if ls.stepCompleted then ls
    else if maxRetries < ls.step.retryCount then ls
    else attemptLoop env oracle fuel (runOneAttempt env oracle ls)

/-- `plan.steps.find(s => s.id === depId)?.status` over a given steps list. -/
def statusOfDep (steps : List PlanStep) (depId : String) : Option StepStatus :=
  (steps.find? (fun s => s.id == depId)).map (fun s => s.status)

/-- `currentStep.dependencies.every(depId => ...?.status === 'completed')`. -/
def dependenciesMet (steps : List PlanStep) (step : PlanStep) : Bool :=
  step.dependencies.all (fun depId => statusOfDep steps depId == some .completed)

/-- The code after the attempt `while` loop: merge the attempt history back
into `toolResults` for audit, and mark the step `failed` if the loop ended
without completing it. -/
def finalizeStep (ls : StepLoopState) (stepIndex : Nat) : EngineState :=
  let finalStep := { ls.step with toolResults := ls.history.flatMap (fun h => h.results) }
  if ls.stepCompleted then
    { ls.engine with steps := ls.engine.steps.set stepIndex finalStep }
  else
    { ls.engine with
      steps := ls.engine.steps.set stepIndex { finalStep with status := .failed }
      failedSteps := ls.engine.failedSteps ++ [finalStep.id]
      evaluationsFailed := ls.engine.evaluationsFailed + 1 }

/-- The body of one iteration of `for (let stepIndex = 0; ...)` for the step
found at the index: mark it `in_progress`, check dependencies (marking
`skipped` on failure, without entering the attempt loop), otherwise run the
attempt loop and finalize.  (The source's `if (!dependenciesMet) … continue`
is written with the branches swapped.) -/
def processStepAux (env : Env) (oracle : Oracle) (st : EngineState)
    (stepIndex : Nat) (step0 : PlanStep) : EngineState :=
  let step1 := { step0 with status := .inProgress }
  let stepsA := st.steps.set stepIndex step1
  let stA := { st with steps := stepsA, currentStepIndex := stepIndex }
  if dependenciesMet stepsA step1 then
    finalizeStep (attemptLoop env oracle maxIterationsPerStep ⟨stA, step1, false, 0, []⟩)
      stepIndex
  else
    { stA with
      steps := stepsA.set stepIndex { step1 with status := .skipped }
      skippedSteps := stA.skippedSteps ++ [step1.id] }

/-- One iteration of `for (let stepIndex = 0; ...)`. -/
def processStep (env : Env) (oracle : Oracle) (st : EngineState) (stepIndex : Nat) :
    EngineState :=
  match st.steps[stepIndex]? with
  | none => st
  | some step0 => processStepAux env oracle st stepIndex step0

/-- The step loop over indices `i, i+1, ...` for `remaining` steps. -/
def runSteps (env : Env) (oracle : Oracle) : Nat → Nat → EngineState → EngineState
  | 0, _, st => st
  | remaining + 1, i, st => runSteps env oracle remaining (i + 1) (processStep env oracle st i)

/-- The engine state as initialized before the step loop in POST. -/
def initEngineState (plan : ExecutionPlan) (files : List FileItem) : EngineState :=
  { steps := plan.steps
    currentStepIndex := 0
    completedSteps := []
    failedSteps := []
    skippedSteps := []
    evaluationsPassed := 0
    evaluationsFailed := 0
    currentFiles := files
    allToolResults := []
    totalIterations := 0
    finalResponse := ""
    idCalls := 0
    imgCalls := 0 }

/-- One full engine pass over the plan (the step loop of POST). -/
def runEngine (env : Env) (oracle : Oracle) (plan : ExecutionPlan)
    (files : List FileItem) : EngineState :=
  runSteps env oracle plan.steps.length 0 (initEngineState plan files)

/-- The per-step snapshot written into `executionSteps` of the record. -/
structure StepSnapshot where
  id : String
  description : String
  status : StepStatus
  retryCount : Nat
  toolResultsCount : Nat
  evaluation : Option StepEvaluation
deriving DecidableEq, Repr

/-- The `lessonsLearned` object of the terminal record update. -/
structure LessonsLearned where
  failedSteps : List String
  skippedSteps : List String
  gaps : List String
  suggestions : List String
deriving DecidableEq, Repr

/-- The `updates` argument of `updateExecutionRecord`; `none` models an
absent/`undefined` field, which the database update skips. -/
structure RecordUpdates where
  planSnapshot : Option ExecutionPlan
  executionSteps : Option (List StepSnapshot)
  evaluationResults : Option OutcomeEval
  finalOutcome : Option String
  totalIterationsText : Option String
  lessonsLearned : Option LessonsLearned
deriving Repr

/-- The `agentExecutions` row, with timestamps as abstract ticks. -/
structure ExecutionRecord where
  userGoal : String
  planSnapshot : Option ExecutionPlan
  executionSteps : List StepSnapshot
  evaluationResults : Option OutcomeEval
  finalOutcome : String
  lessonsLearned : Option LessonsLearned
  totalIterationsText : Option String
  completedAt : Option Nat
deriving Repr

/-- The row inserted by `createExecutionRecord`. -/
def createExecutionRecordRow (userGoal : String) (plan : ExecutionPlan) :
    ExecutionRecord :=
  { userGoal := userGoal
    planSnapshot := some plan
    executionSteps := []
    evaluationResults := none
    finalOutcome := "in_progress"
    lessonsLearned := none
    totalIterationsText := none
    completedAt := none }

/-- `async function updateExecutionRecord(executionId, updates)`: apply the
present fields, and set `completedAt = new Date()` exactly when a truthy
`finalOutcome` other than `'in_progress'` is among them (an `undefined`
`completedAt` leaves the column untouched). -/
def updateExecutionRecord (rec : ExecutionRecord) (now : Nat) (u : RecordUpdates) :
    ExecutionRecord :=
  { rec with
    planSnapshot := match u.planSnapshot with
                    | some p => some p
                    | none => rec.planSnapshot
    executionSteps := u.executionSteps.getD rec.executionSteps
    evaluationResults := match u.evaluationResults with
                         | some e => some e
                         | none => rec.evaluationResults
    finalOutcome := u.finalOutcome.getD rec.finalOutcome
    lessonsLearned := match u.lessonsLearned with
                      | some l => some l
                      | none => rec.lessonsLearned
    totalIterationsText := match u.totalIterationsText with
                           | some t => some t
                           | none => rec.totalIterationsText
    completedAt := match u.finalOutcome with
                   | some s => if s ≠ "" ∧ s ≠ "in_progress" then some now else rec.completedAt
                   | none => rec.completedAt }

/-- The snapshot of one step written into `executionSteps`. -/
def stepSnapshotOf (s : PlanStep) : StepSnapshot :=
  ⟨s.id, s.description, s.status, s.retryCount, s.toolResults.length, s.evaluation⟩

/-- The terminal `updateExecutionRecord` call of POST (lines 983-1002):
`executionState.overallSuccess` has just been assigned
`overallEvaluation.goalAchieved`, so the written `finalOutcome` is
`'completed'` when the evaluation reports the goal achieved and `'partial'`
otherwise.  `finalPlan` is the in-place-mutated plan, whose steps are the
engine state's. -/
def terminalRecordUpdates (st : EngineState) (finalPlan : ExecutionPlan)
    (overallEvaluation : OutcomeEval) : RecordUpdates :=
  { planSnapshot := some finalPlan
    executionSteps := some (finalPlan.steps.map stepSnapshotOf)
    evaluationResults := some overallEvaluation
    finalOutcome := some (if overallEvaluation.goalAchieved then "completed" else "partial")
    totalIterationsText := some (Nat.repr st.totalIterations)
    lessonsLearned := some ⟨st.failedSteps, st.skippedSteps,
      overallEvaluation.gaps, overallEvaluation.suggestions⟩ }

/-! ### Concrete example inputs used by witnesses and test vectors -/

/-- A minimal step with the given id and dependencies. -/
def mkPlainStep (id : String) (deps : List String) : PlanStep :=
  { id := id
    description := ""
    action := ""
    toolsNeeded := []
    dependencies := deps
    expectedOutcome := ""
    status := .pending
    actualOutcome := none
    retryCount := 0
    toolResults := []
    evaluation := none }

/-- A step attempt with 3 tool results, 2 successes and 1 failure. -/
def exStep3 : PlanStep :=
  { mkPlainStep "s" [] with
    toolResults := [⟨"create_file", true, .nullPayload, "s"⟩,
                    ⟨"run_terminal", true, .nullPayload, "s"⟩,
                    ⟨"edit_file", false, .nullPayload, "s"⟩] }

/-- A step attempt with 0 tool results. -/
def exStep0 : PlanStep := mkPlainStep "s" []

/-- A model-supplied step carrying junk status/retry/toolResults values. -/
def rawStepW : PlanStep :=
  { mkPlainStep "sW" [] with
    status := .completed
    retryCount := 7
    toolResults := [⟨"create_file", true, .nullPayload, "sW"⟩] }

/-- A parsed model plan with an empty steps list. -/
def planEmptyW : ExecutionPlan :=
  { goal := "gw"
    analysis := ""
    complexity := .moderate
    steps := []
    proactiveEnhancements := []
    estimatedTools := 0 }

/-- A parsed model plan with one junk step. -/
def planW2 : ExecutionPlan := { planEmptyW with steps := [rawStepW] }

/-- A plan after execution: two completed steps and one failed step. -/
def planC9 : ExecutionPlan :=
  { planEmptyW with
    steps := [{ mkPlainStep "a" [] with status := .completed },
              { mkPlainStep "b" [] with status := .failed, description := "second" },
              { mkPlainStep "c" [] with status := .completed }] }

/-! ### C3 — step evaluator -/

/-- **C3.** `evaluateStep` succeeds exactly when `toolResults` is non-empty
and every result succeeded; the score is `round(100 × successCount / total)`
and there is one issue per failed tool; a 2-of-3 attempt scores
`{success: false, score: 67, issues.length: 1}`, and an attempt without tool
results scores `{success: false, score: 0,
issues: ["No tool executions for this step"]}`. -/
theorem evaluateStep_success_iff_all_tools_succeed (step : PlanStep) :
    ((evaluateStep step).success = true ↔
      step.toolResults ≠ [] ∧ ∀ r ∈ step.toolResults, r.success = true) ∧
    (step.toolResults = [] →
      evaluateStep step = ⟨false, 0, ["No tool executions for this step"]⟩) ∧
    (step.toolResults ≠ [] →
      (evaluateStep step).score =
        roundPct ((step.toolResults.filter (fun r => r.success)).length)
          step.toolResults.length ∧
      (evaluateStep step).issues.length =
        (step.toolResults.filter (fun r => !r.success)).length) ∧
    evaluateStep exStep3 = ⟨false, 67, ["edit_file failed: Unknown error"]⟩ ∧
    evaluateStep exStep0 = ⟨false, 0, ["No tool executions for this step"]⟩ := by
  refine ⟨?_, ?_, ?_, by decide, by decide⟩
  · by_cases h : step.toolResults.length = 0
    · have he : step.toolResults = [] := List.length_eq_zero.mp h
      simp [evaluateStep, h, he]
    · have hne : step.toolResults ≠ [] := fun he => h (by simp [he])
      simp only [evaluateStep, h, if_false, Bool.and_eq_true, beq_iff_eq,
        decide_eq_true_eq, List.length_eq_zero, List.filter_eq_nil_iff,
        Bool.not_eq_true']
      constructor
      · rintro ⟨hfail, -⟩
        refine ⟨hne, fun r hr => ?_⟩
        have := hfail r hr
        simpa using this
      · rintro ⟨-, hall⟩
        refine ⟨fun r hr => by simp [hall r hr], ?_⟩
        have hself : step.toolResults.filter (fun r => r.success) = step.toolResults :=
          List.filter_eq_self.mpr hall
        rw [hself]
        exact List.length_pos.mpr hne
  · intro h
    simp [evaluateStep, h]
  · intro hne
    have h : ¬step.toolResults.length = 0 := fun h0 => hne (List.length_eq_zero.mp h0)
    refine ⟨by simp [evaluateStep, h], ?_⟩
    simp [evaluateStep, h, List.length_map]

/-- Witness for C3: the non-emptiness hypothesis discharged on the concrete
2-of-3 attempt. -/
theorem evaluateStep_success_iff_witness :
    exStep3.toolResults ≠ [] ∧
    (evaluateStep exStep3).score =
      roundPct ((exStep3.toolResults.filter (fun r => r.success)).length)
        exStep3.toolResults.length :=
  ⟨by decide, ((evaluateStep_success_iff_all_tools_succeed exStep3).2.2.1 (by decide)).1⟩

/-! ### C7 — strategic planner fallback and normalization -/

/-- **C7.** A failed planning call or a plan with a missing/empty steps list
yields the deterministic default plan, whose single step's description is the
literal goal; every step of any returned plan is normalized to status
`pending`, `retryCount 0`, empty `toolResults`; and the returned plan is
never empty. -/
theorem planner_fallback_and_normalization (goal : String)
    (modelPlan : Option ExecutionPlan) :
    generateStrategicPlan goal none = createDefaultPlan goal ∧
    (∀ p : ExecutionPlan, p.steps = [] →
      generateStrategicPlan goal (some p) = createDefaultPlan goal) ∧
    (createDefaultPlan goal).steps.map (fun s => s.description) = [goal] ∧
    (∀ s ∈ (generateStrategicPlan goal modelPlan).steps,
      s.status = .pending ∧ s.retryCount = 0 ∧ s.toolResults = []) ∧
    (generateStrategicPlan goal modelPlan).steps ≠ [] := by
  have hdef : ∀ s ∈ (createDefaultPlan goal).steps,
      s.status = .pending ∧ s.retryCount = 0 ∧ s.toolResults = [] := by
    intro s hs
    rw [List.mem_singleton.mp hs]
    exact ⟨rfl, rfl, rfl⟩
  refine ⟨rfl, fun p hp => by simp [generateStrategicPlan, hp], rfl, ?_, ?_⟩
  · intro s hs
    match modelPlan with
    | none => exact hdef s hs
    | some p =>
      by_cases he : p.steps.isEmpty
      · rw [generateStrategicPlan, if_pos he] at hs
        exact hdef s hs
      · rw [generateStrategicPlan, if_neg he] at hs
        obtain ⟨x, -, hx⟩ := List.mem_map.mp hs
        rw [← hx]
        exact ⟨rfl, rfl, rfl⟩
  · match modelPlan with
    | none => simp [generateStrategicPlan, createDefaultPlan]
    | some p =>
      by_cases he : p.steps.isEmpty
      · simp [generateStrategicPlan, he, createDefaultPlan]
      · simp only [generateStrategicPlan, if_neg he]
        simpa using (List.isEmpty_eq_false.mp (by simpa using he))

/-- Witness for C7: empty-plan fallback and normalization applied to the
concrete junk step. -/
theorem planner_fallback_witness :
    planEmptyW.steps = [] ∧
    generateStrategicPlan "gw" (some planEmptyW) = createDefaultPlan "gw" ∧
    ((normalizeStep rawStepW).status = .pending ∧
      (normalizeStep rawStepW).retryCount = 0 ∧
      (normalizeStep rawStepW).toolResults = []) := by
  have h := planner_fallback_and_normalization "gw" (some planW2)
  exact ⟨rfl, h.2.1 planEmptyW rfl, h.2.2.2.1 (normalizeStep rawStepW) (by decide)⟩

/-! ### C9 — outcome verifier fallback -/

/-- **C9.** On model-call failure, `evaluateOverallOutcome` returns the
deterministic fallback: `goalAchieved` iff every step completed (the count
comparison `completedSteps == totalSteps`), completeness
`round(100 × completed / total)` (always ≤ 100), `gaps` the descriptions of
failed steps, and empty `suggestions`. -/
theorem outcome_verifier_fallback (plan : ExecutionPlan) (files : List FileItem)
    (goal : String) (hne : plan.steps ≠ []) :
    ((evaluateOverallOutcome plan files goal none).goalAchieved = true ↔
      ∀ s ∈ plan.steps, s.status = .completed) ∧
    (evaluateOverallOutcome plan files goal none).completeness =
      roundPct ((plan.steps.filter (fun s => s.status == .completed)).length)
        plan.steps.length ∧
    (evaluateOverallOutcome plan files goal none).completeness ≤ 100 ∧
    (evaluateOverallOutcome plan files goal none).gaps =
      (plan.steps.filter (fun s => s.status == .failed)).map (fun s => s.description) ∧
    (evaluateOverallOutcome plan files goal none).suggestions = [] := by
  refine ⟨?_, rfl, ?_, rfl, rfl⟩
  · show ((plan.steps.filter (fun s => s.status == .completed)).length ==
        plan.steps.length) = true ↔ _
    rw [beq_iff_eq, ← List.countP_eq_length_filter, List.countP_eq_length]
    constructor
    · intro h s hs
      simpa using h s hs
    · intro h s hs
      simp [h s hs]
  · show roundPct ((plan.steps.filter (fun s => s.status == .completed)).length)
      plan.steps.length ≤ 100
    have hc : (plan.steps.filter (fun s => s.status == .completed)).length ≤
        plan.steps.length := List.length_filter_le _ _
    have ht : 0 < plan.steps.length := List.length_pos.mpr hne
    have : roundPct ((plan.steps.filter (fun s => s.status == .completed)).length)
        plan.steps.length < 101 := by
      rw [roundPct, Nat.div_lt_iff_lt_mul (by omega)]
      omega
    omega

/-- Witness for C9: the fallback on a concrete 2-of-3-completed plan. -/
theorem outcome_verifier_fallback_witness :
    planC9.steps ≠ [] ∧
    (evaluateOverallOutcome planC9 [] "g" none).completeness ≤ 100 ∧
    evaluateOverallOutcome planC9 [] "g" none = ⟨false, 67, ["second"], []⟩ :=
  ⟨by decide, (outcome_verifier_fallback planC9 [] "g" (by decide)).2.2.1, by decide⟩

/-! ### C10 — terminal outcome and `completedAt` -/

/-- An updates record that writes `in_progress` (as `createExecutionRecord`
conceptually does on insert). -/
def uInProgW : RecordUpdates := ⟨none, none, none, some "in_progress", none, none⟩

/-- A concrete final evaluation and record for the C10 witness. -/
def ovW : OutcomeEval := ⟨false, 0, [], []⟩

/-- A concrete freshly-created execution record. -/
def recW : ExecutionRecord := createExecutionRecordRow "g" planW2

/-- **C10.** The terminal `finalOutcome` written by POST is `'completed'`
exactly when the overall evaluation reports `goalAchieved` and `'partial'`
otherwise — never `'failed'` — and that update sets `completedAt`, which an
update writing `'in_progress'` (or no outcome) would not. -/
theorem terminal_outcome_and_completedAt (st : EngineState)
    (finalPlan : ExecutionPlan) (ov : OutcomeEval) (rec : ExecutionRecord)
    (now : Nat) :
    ((terminalRecordUpdates st finalPlan ov).finalOutcome = some "completed" ↔
      ov.goalAchieved = true) ∧
    ((terminalRecordUpdates st finalPlan ov).finalOutcome = some "partial" ↔
      ov.goalAchieved = false) ∧
    (terminalRecordUpdates st finalPlan ov).finalOutcome ≠ some "failed" ∧
    (updateExecutionRecord rec now (terminalRecordUpdates st finalPlan ov)).completedAt =
      some now ∧
    (updateExecutionRecord rec now (terminalRecordUpdates st finalPlan ov)).finalOutcome =
      (if ov.goalAchieved then "completed" else "partial") ∧
    (∀ u : RecordUpdates, u.finalOutcome = some "in_progress" →
      (updateExecutionRecord rec now u).completedAt = rec.completedAt) ∧
    (∀ u : RecordUpdates, u.finalOutcome = none →
      (updateExecutionRecord rec now u).completedAt = rec.completedAt) := by
  refine ⟨?_, ?_, ?_, ?_, ?_, ?_, ?_⟩
  · cases h : ov.goalAchieved <;> simp [terminalRecordUpdates, h]
  · cases h : ov.goalAchieved <;> simp [terminalRecordUpdates, h]
  · cases h : ov.goalAchieved <;> simp [terminalRecordUpdates, h]
  · cases h : ov.goalAchieved <;>
      simp [terminalRecordUpdates, updateExecutionRecord, h]
  · cases h : ov.goalAchieved <;>
      simp [terminalRecordUpdates, updateExecutionRecord, h]
  · intro u hu
    simp [updateExecutionRecord, hu]
  · intro u hu
    simp [updateExecutionRecord, hu]

/-- Witness for C10: an `'in_progress'` update leaves `completedAt` alone,
while the terminal update stamps it. -/
theorem terminal_outcome_witness :
    (updateExecutionRecord recW 5 uInProgW).completedAt = recW.completedAt ∧
    (updateExecutionRecord recW 5
      (terminalRecordUpdates (initEngineState planW2 []) planW2 ovW)).completedAt =
      some 5 :=
  ⟨(terminal_outcome_and_completedAt (initEngineState planW2 []) planW2 ovW recW
      5).2.2.2.2.2.1 uInProgW rfl,
   (terminal_outcome_and_completedAt (initEngineState planW2 []) planW2 ovW recW
      5).2.2.2.1⟩

/-! ### C8 — context compaction -/

/-- A 25-message alternating history. -/
def ex25 : List ChatMessage :=
  (List.range 25).map (fun i =>
    ⟨if i % 2 = 0 then Role.user else Role.assistant, "m" ++ Nat.repr i⟩)

/-- A 10-message alternating history. -/
def ex10 : List ChatMessage :=
  (List.range 10).map (fun i =>
    ⟨if i % 2 = 0 then Role.user else Role.assistant, "m" ++ Nat.repr i⟩)

/-- `getLast?` is preserved by dropping fewer elements than the length. -/
theorem getLast?_drop_of_lt {α : Type} (l : List α) (k : Nat) (h : k < l.length) :
    (l.drop k).getLast? = l.getLast? := by
  rw [List.getLast?_eq_getElem?, List.getLast?_eq_getElem?, List.getElem?_drop,
    List.length_drop]
  congr 1
  omega

/-- **C8.** With threshold 20, `compactContext` returns histories of length
≤ 20 unchanged; a longer history becomes one synthetic system summary (built
from at most the last 10 user/assistant pairs of the older prefix) followed
by exactly the last 14 = ⌈0.7·20⌉ messages, so the most recent message is
never dropped; in particular 25 messages become `[summary, …last 14]` and 10
messages are unchanged. -/
theorem compactContext_threshold (msgs : List ChatMessage) :
    (msgs.length ≤ 20 → compactContext msgs 20 = msgs) ∧
    (20 < msgs.length →
      compactContext msgs 20 =
        ⟨.system, summaryContent (msgs.take (msgs.length - 14))⟩ ::
          msgs.drop (msgs.length - 14) ∧
      (compactContext msgs 20).length = 15 ∧
      (compactContext msgs 20).getLast? = msgs.getLast?) ∧
    (∀ older : List ChatMessage,
      (sliceLast (buildSummaryPoints older "") 10).length ≤ 10) ∧
    compactContext ex10 20 = ex10 ∧
    (compactContext ex25 20).length = 15 ∧
    List.drop 1 (compactContext ex25 20) = ex25.drop 11 := by
  refine ⟨?_, ?_, ?_, ?_, ?_, ?_⟩
  · intro h
    simp [compactContext, h]
  · intro h
    have hnot : ¬msgs.length ≤ 20 := by omega
    have hform : compactContext msgs 20 =
        ⟨.system, summaryContent (msgs.take (msgs.length - 14))⟩ ::
          msgs.drop (msgs.length - 14) := by
      rw [compactContext, if_neg hnot]
      show (⟨Role.system, summaryContent
          (msgs.take (msgs.length - (sliceLast msgs (7 * 20 / 10)).length))⟩ :
          ChatMessage) :: sliceLast msgs (7 * 20 / 10) = _
      have h1 : (7 : Nat) * 20 / 10 = 14 := by norm_num
      have h2 : sliceLast msgs 14 = msgs.drop (msgs.length - 14) := by
        rw [sliceLast, if_neg (by omega)]
      have h3 : (msgs.drop (msgs.length - 14)).length = 14 := by
        rw [List.length_drop]
        omega
      rw [h1, h2, h3]
    refine ⟨hform, ?_, ?_⟩
    · rw [hform]
      simp [List.length_drop]
      omega
    · rw [hform]
      have hdrop : (msgs.drop (msgs.length - 14)).getLast? = msgs.getLast? :=
        getLast?_drop_of_lt msgs (msgs.length - 14) (by omega)
      rw [← hdrop]
      have h3 : (msgs.drop (msgs.length - 14)).length = 14 := by
        rw [List.length_drop]
        omega
      rw [List.getLast?_eq_getElem?, List.getLast?_eq_getElem?, List.length_cons, h3]
      have h14 : (14 : Nat) + 1 - 1 = 13 + 1 := rfl
      have h13 : (14 : Nat) - 1 = 13 := rfl
      rw [h14, h13, List.getElem?_cons_succ]
  · intro older
    rw [sliceLast]
    by_cases h : (10 : Nat) = 0
    · omega
    · rw [if_neg h, List.length_drop]
      omega
  · decide
  · decide
  · decide

/-- Witness for C8: the threshold hypotheses discharged on the concrete 25-
and 10-message histories. -/
theorem compactContext_threshold_witness :
    (compactContext ex25 20).length = 15 ∧ compactContext ex10 20 = ex10 :=
  ⟨((compactContext_threshold ex25).2.1 (by decide)).2.1,
   (compactContext_threshold ex10).1 (by decide)⟩

/-! ### C6 — workspace reducer idempotence -/

/-- Whether a tool result is an `edit_file` or `delete_file` outcome — the
two reducer actions that can remove or rewrite an existing manifest entry. -/
def hasEditOrDelete (r : ToolResult) : Bool :=
  match r.result with
  | .editFile .. => true
  | .deleteFile .. => true
  | _ => false

/-- The manifest path by which a successful `create_file` / `generate_image`
result is duplicate-suppressed. -/
def pathKeyOf (r : ToolResult) : Option String :=
  if r.success then
    match r.result with
    | .createFile f => some f.path
    | .generateImage filename _ => some ("/images/" ++ filename)
    | _ => none
  else none

/-- All manifest entries at a given path. -/
def countPath (files : List FileItem) (p : String) : Nat :=
  (files.filter (fun f => f.path == p)).length

/-- The `createdFilePaths` set only holds paths present in the manifest
(true initially, and preserved as long as nothing deletes files). -/
def pathsInvariant (st : ReducerState) : Prop :=
  ∀ p ∈ st.createdFilePaths, st.files.any (fun f => f.path == p) = true

/-- A failed call leaves the reducer state unchanged. -/
theorem applyToolResult_not_success (env : Env) (st : ReducerState)
    (r : ToolResult) (hs : r.success = false) :
    applyToolResult env st r = st := by
  unfold applyToolResult
  rw [hs]
  rfl

/-- A successful call dispatches on its payload. -/
theorem applyToolResult_success (env : Env) (st : ReducerState)
    (r : ToolResult) (hs : r.success = true) :
    applyToolResult env st r = applyPayload env st r.result := by
  unfold applyToolResult
  rw [hs]
  rfl

/-- `create_file` with the path already present (in the manifest or in the
batch-local `createdFilePaths` set) is suppressed. -/
theorem applyPayload_create_present (env : Env) (st : ReducerState) (f : FileItem)
    (hc : (st.files.any (fun fl => fl.path == f.path)
      || st.createdFilePaths.contains f.path) = true) :
    applyPayload env st (.createFile f) = st := by
  simp only [applyPayload]
  rw [if_pos hc]

/-- `create_file` with a new path appends the file and records the path. -/
theorem applyPayload_create_new (env : Env) (st : ReducerState) (f : FileItem)
    (hc : (st.files.any (fun fl => fl.path == f.path)
      || st.createdFilePaths.contains f.path) = false) :
    applyPayload env st (.createFile f) =
      { st with createdFilePaths := st.createdFilePaths ++ [f.path]
                files := st.files ++ [f] } := by
  simp only [applyPayload]
  rw [if_neg (by rw [hc]; exact Bool.false_ne_true)]

/-- `generate_image` with the conventional path already present is skipped. -/
theorem applyPayload_image_present (env : Env) (st : ReducerState) (fn b64 : String)
    (hc : st.files.any (fun fl => fl.path == ("/images/" ++ fn)) = true) :
    applyPayload env st (.generateImage fn b64) = st := by
  simp only [applyPayload]
  rw [if_pos hc]

/-- `generate_image` with a fresh conventional path appends the image file. -/
theorem applyPayload_image_new (env : Env) (st : ReducerState) (fn b64 : String)
    (hc : st.files.any (fun fl => fl.path == ("/images/" ++ fn)) = false) :
    applyPayload env st (.generateImage fn b64) =
      { st with
        generatedImages := st.generatedImages ++ [⟨fn, b64⟩]
        files := st.files ++
          [⟨env.freshIds st.idCalls, fn, "file",
            some ("data:image/png;base64," ++ b64), "/images/" ++ fn⟩]
        idCalls := st.idCalls + 1 } := by
  simp only [applyPayload]
  rw [if_neg (by rw [hc]; exact Bool.false_ne_true)]

/-- Without edit/delete results, one reducer iteration only appends files. -/
theorem applyToolResult_files_append (env : Env) (st : ReducerState)
    (r : ToolResult) (h : hasEditOrDelete r = false) :
    ∃ t, (applyToolResult env st r).files = st.files ++ t := by
  by_cases hs : r.success
  · rw [applyToolResult_success env st r hs]
    cases hres : r.result with
    | createFile f =>
      by_cases hc : (st.files.any (fun fl => fl.path == f.path)
          || st.createdFilePaths.contains f.path) = true
      · exact ⟨[], by rw [applyPayload_create_present env st f hc]; simp⟩
      · exact ⟨[f], by
          rw [applyPayload_create_new env st f (Bool.eq_false_iff.mpr hc)]⟩
    | editFile a b c => rw [hasEditOrDelete, hres] at h; exact absurd h (by simp)
    | deleteFile a => rw [hasEditOrDelete, hres] at h; exact absurd h (by simp)
    | installPackage pkg => exact ⟨[], by simp [applyPayload]⟩
    | runTerminal a b => exact ⟨[], by simp [applyPayload]⟩
    | generateImage fn b64 =>
      by_cases hc : st.files.any (fun fl => fl.path == ("/images/" ++ fn)) = true
      · exact ⟨[], by rw [applyPayload_image_present env st fn b64 hc]; simp⟩
      · exact ⟨[⟨env.freshIds st.idCalls, fn, "file",
            some ("data:image/png;base64," ++ b64), "/images/" ++ fn⟩], by
          rw [applyPayload_image_new env st fn b64 (Bool.eq_false_iff.mpr hc)]⟩
    | readFile a b c => exact ⟨[], by simp [applyPayload]⟩
    | listFiles a => exact ⟨[], by simp [applyPayload]⟩
    | completeStep a b => exact ⟨[], by simp [applyPayload]⟩
    | nullPayload => exact ⟨[], by simp [applyPayload]⟩
    | errorInfo a => exact ⟨[], by simp [applyPayload]⟩
  · exact ⟨[], by
      rw [applyToolResult_not_success env st r (Bool.eq_false_iff.mpr hs)]
      simp⟩

/-- Without edit/delete results, one reducer iteration preserves the path
invariant. -/
theorem applyToolResult_pathsInvariant (env : Env) (st : ReducerState)
    (r : ToolResult) (h : hasEditOrDelete r = false) (hinv : pathsInvariant st) :
    pathsInvariant (applyToolResult env st r) := by
  by_cases hs : r.success
  · rw [applyToolResult_success env st r hs]
    cases hres : r.result with
    | createFile f =>
      by_cases hc : (st.files.any (fun fl => fl.path == f.path)
          || st.createdFilePaths.contains f.path) = true
      · rw [applyPayload_create_present env st f hc]
        exact hinv
      · rw [applyPayload_create_new env st f (Bool.eq_false_iff.mpr hc)]
        intro p hp
        have hp' : p ∈ st.createdFilePaths ++ [f.path] := hp
        show ((st.files ++ [f]).any fun fl => fl.path == p) = true
        rw [List.any_append]
        rcases List.mem_append.mp hp' with hold | hnew
        · rw [hinv p hold]
          rfl
        · have hpf : p = f.path := by simpa using hnew
          subst hpf
          simp
    | editFile a b c => rw [hasEditOrDelete, hres] at h; exact absurd h (by simp)
    | deleteFile a => rw [hasEditOrDelete, hres] at h; exact absurd h (by simp)
    | installPackage pkg => exact hinv
    | runTerminal a b => exact hinv
    | generateImage fn b64 =>
      by_cases hc : st.files.any (fun fl => fl.path == ("/images/" ++ fn)) = true
      · rw [applyPayload_image_present env st fn b64 hc]
        exact hinv
      · rw [applyPayload_image_new env st fn b64 (Bool.eq_false_iff.mpr hc)]
        intro p hp
        have hp' : p ∈ st.createdFilePaths := hp
        show ((st.files ++ [FileItem.mk (env.freshIds st.idCalls) fn "file"
          (some ("data:image/png;base64," ++ b64)) ("/images/" ++ fn)]).any
            fun fl => fl.path == p) = true
        rw [List.any_append, hinv p hp']
        rfl
    | readFile a b c => exact hinv
    | listFiles a => exact hinv
    | completeStep a b => exact hinv
    | nullPayload => exact hinv
    | errorInfo a => exact hinv
  · rw [applyToolResult_not_success env st r (Bool.eq_false_iff.mpr hs)]
    exact hinv

/-- Without edit/delete results, a whole batch only appends files. -/
theorem runReducer_files_append (env : Env) (batch : List ToolResult) :
    ∀ st : ReducerState, (∀ r ∈ batch, hasEditOrDelete r = false) →
      ∃ t, (runReducer env batch st).files = st.files ++ t := by
  induction batch with
  | nil => exact fun st _ => ⟨[], by simp [runReducer]⟩
  | cons c rest ih =>
    intro st hall
    obtain ⟨t1, ht1⟩ := applyToolResult_files_append env st c (hall c (by simp))
    obtain ⟨t2, ht2⟩ := ih (applyToolResult env st c)
      (fun r hr => hall r (by simp [hr]))
    exact ⟨t1 ++ t2, by rw [runReducer, ht2, ht1, List.append_assoc]⟩

/-- After a batch without edit/delete results, the path key of every
successful create/generate result of the batch is present in the manifest. -/
theorem runReducer_covers (env : Env) (batch : List ToolResult) :
    ∀ st : ReducerState, (∀ r ∈ batch, hasEditOrDelete r = false) →
      pathsInvariant st →
      ∀ r ∈ batch, ∀ k, pathKeyOf r = some k →
        (runReducer env batch st).files.any (fun f => f.path == k) = true := by
  induction batch with
  | nil => intro st _ _ r hr; simp at hr
  | cons c rest ih =>
    intro st hall hinv r hr k hk
    have hallrest : ∀ x ∈ rest, hasEditOrDelete x = false :=
      fun x hx => hall x (by simp [hx])
    have hinv' : pathsInvariant (applyToolResult env st c) :=
      applyToolResult_pathsInvariant env st c (hall c (by simp)) hinv
    rcases List.mem_cons.mp hr with hrc | hrrest
    · subst hrc
      -- the head call itself: its path is present right after its own
      -- iteration, and the rest of the batch only appends files
      have hs : r.success = true := by
        by_contra hns
        simp [pathKeyOf, Bool.eq_false_iff.mpr hns] at hk
      have hpresent : (applyToolResult env st r).files.any (fun f => f.path == k) = true := by
        rw [applyToolResult_success env st r hs]
        cases hres : r.result with
        | createFile f =>
          have hkf : k = f.path := by
            simp only [pathKeyOf, hs, if_true, hres, Option.some.injEq] at hk
            exact hk.symm
          subst hkf
          by_cases ha : st.files.any (fun fl => fl.path == f.path) = true
          · have hc : (st.files.any (fun fl => fl.path == f.path)
                || st.createdFilePaths.contains f.path) = true := by
              rw [ha]
              rfl
            rw [applyPayload_create_present env st f hc]
            exact ha
          · by_cases hcont : st.createdFilePaths.contains f.path = true
            · -- the `createdFilePaths` set only holds present paths
              exfalso
              rw [List.contains_eq_any_beq] at hcont
              obtain ⟨x, hx, hbx⟩ := List.any_eq_true.mp hcont
              have hxval : f.path = x := by simpa using hbx
              subst hxval
              exact ha (hinv _ hx)
            · have hc : (st.files.any (fun fl => fl.path == f.path)
                  || st.createdFilePaths.contains f.path) = false := by
                rw [Bool.eq_false_iff.mpr ha, Bool.eq_false_iff.mpr hcont]
                rfl
              rw [applyPayload_create_new env st f hc]
              show ((st.files ++ [f]).any fun fl => fl.path == f.path) = true
              rw [List.any_append]
              simp
        | generateImage fn b64 =>
          have hkf : k = "/images/" ++ fn := by
            simp only [pathKeyOf, hs, if_true, hres, Option.some.injEq] at hk
            exact hk.symm
          subst hkf
          by_cases ha : st.files.any (fun fl => fl.path == ("/images/" ++ fn)) = true
          · rw [applyPayload_image_present env st fn b64 ha]
            exact ha
          · rw [applyPayload_image_new env st fn b64 (Bool.eq_false_iff.mpr ha)]
            show ((st.files ++ [FileItem.mk (env.freshIds st.idCalls) fn "file"
              (some ("data:image/png;base64," ++ b64)) ("/images/" ++ fn)]).any
                fun fl => fl.path == ("/images/" ++ fn)) = true
            rw [List.any_append]
            simp
        | editFile a b c2 => simp [pathKeyOf, hs, hres] at hk
        | deleteFile a => simp [pathKeyOf, hs, hres] at hk
        | installPackage pkg => simp [pathKeyOf, hs, hres] at hk
        | runTerminal a b => simp [pathKeyOf, hs, hres] at hk
        | readFile a b c2 => simp [pathKeyOf, hs, hres] at hk
        | listFiles a => simp [pathKeyOf, hs, hres] at hk
        | completeStep a b => simp [pathKeyOf, hs, hres] at hk
        | nullPayload => simp [pathKeyOf, hs, hres] at hk
        | errorInfo a => simp [pathKeyOf, hs, hres] at hk
      obtain ⟨t, ht⟩ := runReducer_files_append env rest (applyToolResult env st r) hallrest
      rw [runReducer, ht, List.any_append, hpresent]
      rfl
    · exact ih (applyToolResult env st c) hallrest hinv' r hrrest k hk

/-- One reducer iteration leaves the manifest unchanged when every path its
result would create is already present (and it is not an edit/delete). -/
theorem applyToolResult_files_stable (env : Env) (st : ReducerState)
    (r : ToolResult) (h : hasEditOrDelete r = false)
    (hcov : ∀ k, pathKeyOf r = some k →
      st.files.any (fun f => f.path == k) = true) :
    (applyToolResult env st r).files = st.files := by
  by_cases hs : r.success
  · rw [applyToolResult_success env st r hs]
    cases hres : r.result with
    | createFile f =>
      have ha := hcov f.path (by simp [pathKeyOf, hs, hres])
      have hc : (st.files.any (fun fl => fl.path == f.path)
          || st.createdFilePaths.contains f.path) = true := by
        rw [ha]
        rfl
      rw [applyPayload_create_present env st f hc]
    | editFile a b c => rw [hasEditOrDelete, hres] at h; exact absurd h (by simp)
    | deleteFile a => rw [hasEditOrDelete, hres] at h; exact absurd h (by simp)
    | installPackage pkg => rfl
    | runTerminal a b => rfl
    | generateImage fn b64 =>
      have ha := hcov ("/images/" ++ fn) (by simp [pathKeyOf, hs, hres])
      rw [applyPayload_image_present env st fn b64 ha]
    | readFile a b c => rfl
    | listFiles a => rfl
    | completeStep a b => rfl
    | nullPayload => rfl
    | errorInfo a => rfl
  · rw [applyToolResult_not_success env st r (Bool.eq_false_iff.mpr hs)]

/-- A batch without edit/delete results whose create/generate paths are all
already present leaves the manifest unchanged. -/
theorem runReducer_files_stable (env : Env) (batch : List ToolResult) :
    ∀ st : ReducerState, (∀ r ∈ batch, hasEditOrDelete r = false) →
      (∀ r ∈ batch, ∀ k, pathKeyOf r = some k →
        st.files.any (fun f => f.path == k) = true) →
      (runReducer env batch st).files = st.files := by
  induction batch with
  | nil => intro st _ _; rfl
  | cons c rest ih =>
    intro st hall hcov
    have hstable : (applyToolResult env st c).files = st.files :=
      applyToolResult_files_stable env st c (hall c (by simp))
        (fun k hk => hcov c (by simp) k hk)
    rw [runReducer, ih (applyToolResult env st c)
      (fun r hr => hall r (by simp [hr]))
      (fun r hr k hk => by rw [hstable]; exact hcov r (by simp [hr]) k hk)]
    exact hstable

/-- A deterministic id/image environment for concrete runs. -/
def envT : Env := ⟨fun n => "g" ++ Nat.repr n, fun _ => none⟩

/-- A pre-existing manifest file at path `/p`. -/
def fileX : FileItem := ⟨"x", "x.txt", "file", some "old", "/p"⟩

/-- A freshly created file, also at path `/p`. -/
def fileF : FileItem := ⟨"f", "f.txt", "file", some "new", "/p"⟩

/-- A successful `create_file` result for `fileF`. -/
def crRes : ToolResult := ⟨"create_file", true, .createFile fileF, "s"⟩

/-- A successful `delete_file` result for `fileX`. -/
def delRes : ToolResult := ⟨"delete_file", true, .deleteFile "x", "s"⟩

/-- A batch mixing a create with a delete whose target blocks the create. -/
def batch6 : List ToolResult := [crRes, delRes]

/-- **C6 (counterexample).** `processToolResults` is not idempotent for an
arbitrary re-applied batch: on the manifest `[fileX]` (which occupies path
`/p`), the batch `[create fileF@/p, delete fileX]` first yields the empty
manifest (the create is suppressed by the still-present `fileX`, which the
delete then removes), but re-applying the same batch to that result yields
`[fileF]`. -/
theorem processToolResults_not_idempotent :
    (processToolResults envT batch6
        (processToolResults envT batch6 [fileX] 0).files 0).files ≠
      (processToolResults envT batch6 [fileX] 0).files := by
  decide

/-- **C6 (amended).** The Workspace Reducer suppresses duplicates keyed by
path for `create_file`/`generate_image` results; re-applying a batch that
contains no `edit_file`/`delete_file` result is idempotent on the manifest,
and in particular applying the same successful `create_file` result twice —
within one batch or across a per-step pass and the aggregate pass — yields
exactly one file at that path.  (Idempotence does not extend to batches
mixing a create with a delete/edit: see the counterexample.) -/
theorem workspace_reducer_idempotent_amended (env env2 : Env)
    (m : List FileItem) (batch : List ToolResult) (idc idc2 : Nat)
    (r : ToolResult) (f : FileItem) :
    ((∀ x ∈ batch, hasEditOrDelete x = false) →
      (processToolResults env2 batch
        (processToolResults env batch m idc).files idc2).files =
        (processToolResults env batch m idc).files) ∧
    (r.success = true → r.result = .createFile f →
      (∀ fl ∈ m, fl.path ≠ f.path) →
      countPath (processToolResults env [r, r] m idc).files f.path = 1 ∧
      countPath (processToolResults env2 [r]
        (processToolResults env [r] m idc).files idc2).files f.path = 1) := by
  constructor
  · intro hall
    have hinv0 : pathsInvariant (⟨m, [], [], [], [], idc⟩ : ReducerState) := by
      intro p hp
      simp at hp
    have hcov : ∀ x ∈ batch, ∀ k, pathKeyOf x = some k →
        (processToolResults env batch m idc).files.any (fun fl => fl.path == k) = true :=
      fun x hx k hk =>
        runReducer_covers env batch ⟨m, [], [], [], [], idc⟩ hall hinv0 x hx k hk
    exact runReducer_files_stable env2 batch
      ⟨(processToolResults env batch m idc).files, [], [], [], [], idc2⟩ hall
      (fun x hx k hk => hcov x hx k hk)
  · intro hs hres hm
    have hany : m.any (fun fl => fl.path == f.path) = false := by
      rw [List.any_eq_false]
      intro x hx
      simp [hm x hx]
    have hc0 : ((m.any fun fl => fl.path == f.path)
        || (List.contains ([] : List String) f.path)) = false := by
      rw [hany]
      rfl
    -- first application of the create on `m`
    have h1 : applyToolResult env ⟨m, [], [], [], [], idc⟩ r =
        ⟨m ++ [f], [f.path], [], [], [], idc⟩ := by
      rw [applyToolResult_success env _ r hs, hres,
        applyPayload_create_new env _ f hc0]
      rfl
    -- any re-application of the create is suppressed by the present path
    have hany1 : (m ++ [f]).any (fun fl => fl.path == f.path) = true := by
      rw [List.any_append]
      simp
    have hsupp : ∀ st : ReducerState, st.files = m ++ [f] →
        applyToolResult env st r = st ∧ applyToolResult env2 st r = st := by
      intro st hst
      have hc : (st.files.any (fun fl => fl.path == f.path)
          || st.createdFilePaths.contains f.path) = true := by
        rw [hst, hany1]
        rfl
      constructor
      · rw [applyToolResult_success env st r hs, hres,
          applyPayload_create_present env st f hc]
      · rw [applyToolResult_success env2 st r hs, hres,
          applyPayload_create_present env2 st f hc]
    have hcount : countPath (m ++ [f]) f.path = 1 := by
      rw [countPath, List.filter_append]
      have hm0 : m.filter (fun fl => fl.path == f.path) = [] := by
        rw [List.filter_eq_nil_iff]
        intro x hx
        simp [hm x hx]
      rw [hm0]
      simp
    have hinner : runReducer env [r] ⟨m, [], [], [], [], idc⟩ =
        ⟨m ++ [f], [f.path], [], [], [], idc⟩ := by
      rw [runReducer, h1, runReducer]
    constructor
    · show countPath (runReducer env [r, r] ⟨m, [], [], [], [], idc⟩).files f.path = 1
      rw [runReducer, h1, runReducer,
        (hsupp ⟨m ++ [f], [f.path], [], [], [], idc⟩ rfl).1, runReducer]
      exact hcount
    · show countPath (runReducer env2 [r]
        ⟨(runReducer env [r] ⟨m, [], [], [], [], idc⟩).files, [], [], [], [], idc2⟩).files
          f.path = 1
      rw [hinner]
      show countPath
        (runReducer env2 [r] ⟨m ++ [f], [], [], [], [], idc2⟩).files f.path = 1
      rw [runReducer, (hsupp ⟨m ++ [f], [], [], [], [], idc2⟩ rfl).2, runReducer]
      exact hcount

/-- Witness for C6 (amended): the concrete create applied twice on the empty
manifest. -/
theorem workspace_reducer_idempotent_witness :
    (processToolResults envT [crRes, crRes]
        (processToolResults envT [crRes, crRes] [] 0).files 0).files =
      (processToolResults envT [crRes, crRes] [] 0).files ∧
    countPath (processToolResults envT [crRes, crRes] [] 0).files fileF.path = 1 := by
  have h := workspace_reducer_idempotent_amended envT envT [] [crRes, crRes] 0 0 crRes fileF
  exact ⟨h.1 (by decide), (h.2 rfl rfl (by simp)).1⟩

/-! ### C2 — unmet dependencies always skip -/

/-- `processStep` at an index holding a step dispatches to the body. -/
theorem processStep_some (env : Env) (oracle : Oracle) (st : EngineState)
    (i : Nat) (step0 : PlanStep) (hstep : st.steps[i]? = some step0) :
    processStep env oracle st i = processStepAux env oracle st i step0 := by
  unfold processStep
  rw [hstep]

/-- Setting one entry to a step of the same id and a non-`completed` status
cannot make a dependency lookup report `completed`. -/
theorem statusOfDep_set_not_completed (d : String) (b : PlanStep)
    (hb : b.status ≠ .completed) :
    ∀ (l : List PlanStep) (i : Nat),
      (∀ a, l[i]? = some a → b.id = a.id) →
      statusOfDep l d ≠ some .completed →
      statusOfDep (l.set i b) d ≠ some .completed := by
  intro l
  induction l with
  | nil =>
    intro i _ h
    simpa using h
  | cons x xs ih =>
    intro i hid h
    cases i with
    | zero =>
      have hbx : b.id = x.id := hid x (by simp)
      rw [List.set_cons_zero]
      by_cases hpb : ((fun s : PlanStep => s.id == d) b) = true
      · rw [statusOfDep,
          @List.find?_cons_of_pos PlanStep (fun s => s.id == d) b xs hpb]
        intro hcontra
        exact hb (by simpa using hcontra)
      · rw [statusOfDep,
          @List.find?_cons_of_neg PlanStep (fun s => s.id == d) b xs hpb]
        have hpx : ¬((fun s : PlanStep => s.id == d) x) = true := by
          show ¬(x.id == d) = true
          rw [← hbx]
          exact hpb
        rw [statusOfDep,
          @List.find?_cons_of_neg PlanStep (fun s => s.id == d) x xs hpx] at h
        exact h
    | succ j =>
      rw [List.set_cons_succ]
      by_cases hpx : ((fun s : PlanStep => s.id == d) x) = true
      · rw [statusOfDep,
          @List.find?_cons_of_pos PlanStep (fun s => s.id == d) x (xs.set j b) hpx]
        rw [statusOfDep,
          @List.find?_cons_of_pos PlanStep (fun s => s.id == d) x xs hpx] at h
        exact h
      · rw [statusOfDep,
          @List.find?_cons_of_neg PlanStep (fun s => s.id == d) x (xs.set j b) hpx]
        rw [statusOfDep,
          @List.find?_cons_of_neg PlanStep (fun s => s.id == d) x xs hpx] at h
        exact ih j (fun a ha => hid a (by simpa using ha)) h

/-- The skip branch of the step loop, fully characterized. -/
theorem processStepAux_skip (env : Env) (oracle : Oracle) (st : EngineState)
    (i : Nat) (step0 : PlanStep)
    (hmet : dependenciesMet (st.steps.set i { step0 with status := .inProgress })
      { step0 with status := .inProgress } = false) :
    processStepAux env oracle st i step0 = { st with
      steps := st.steps.set i { step0 with status := .skipped }
      currentStepIndex := i
      skippedSteps := st.skippedSteps ++ [step0.id] } := by
  unfold processStepAux
  simp only []
  rw [hmet]
  show ({ st with
    steps := (st.steps.set i { step0 with status := .inProgress }).set i
      { step0 with status := .skipped }
    currentStepIndex := i
    skippedSteps := st.skippedSteps ++ [step0.id] } : EngineState) = _
  rw [List.set_set]

/-- The run branch of the step loop. -/
theorem processStepAux_run (env : Env) (oracle : Oracle) (st : EngineState)
    (i : Nat) (step0 : PlanStep)
    (hmet : dependenciesMet (st.steps.set i { step0 with status := .inProgress })
      { step0 with status := .inProgress } = true) :
    processStepAux env oracle st i step0 =
      finalizeStep (attemptLoop env oracle maxIterationsPerStep
        ⟨{ st with steps := st.steps.set i { step0 with status := .inProgress }
                   currentStepIndex := i },
          { step0 with status := .inProgress }, false, 0, []⟩) i := by
  unfold processStepAux
  simp only []
  rw [hmet]
  rfl

/-- **C2.** A step one of whose declared dependencies does not resolve to a
`completed` step at the moment the engine reaches it (a later, still-pending
step, an absent id, or any non-completed status) is marked `skipped` and its
attempt loop never runs: the engine state is unchanged except for the
`skipped` status, the `skippedSteps` entry and the step cursor — in
particular no model round-trip (`totalIterations`), no tool call
(`allToolResults`, `toolResults`) and no workspace change (`currentFiles`)
occurs for that step. -/
theorem unmet_dependency_skips_step (env : Env) (oracle : Oracle)
    (st : EngineState) (i : Nat) (step0 : PlanStep) (d : String)
    (hstep : st.steps[i]? = some step0)
    (hd : d ∈ step0.dependencies)
    (hnc : statusOfDep st.steps d ≠ some .completed) :
    processStep env oracle st i = { st with
      steps := st.steps.set i { step0 with status := .skipped }
      currentStepIndex := i
      skippedSteps := st.skippedSteps ++ [step0.id] } := by
  have hb : ({ step0 with status := .inProgress } : PlanStep).status ≠ .completed := by
    intro hcontra
    exact absurd hcontra (by simp)
  have hid : ∀ a, st.steps[i]? = some a →
      ({ step0 with status := .inProgress } : PlanStep).id = a.id := by
    intro a ha
    rw [hstep] at ha
    rw [← Option.some.injEq step0 a |>.mp ha]
  have hnc2 : statusOfDep (st.steps.set i { step0 with status := .inProgress }) d ≠
      some .completed :=
    statusOfDep_set_not_completed d { step0 with status := .inProgress } hb
      st.steps i hid hnc
  have hmet : dependenciesMet (st.steps.set i { step0 with status := .inProgress })
      { step0 with status := .inProgress } = false := by
    rw [Bool.eq_false_iff]
    intro hall
    rw [dependenciesMet] at hall
    have hpred := List.all_eq_true.mp hall d hd
    rw [beq_iff_eq] at hpred
    exact hnc2 hpred
  rw [processStep_some env oracle st i step0 hstep,
    processStepAux_skip env oracle st i step0 hmet]

/-- A one-step engine state whose step depends on an id absent from the
plan. -/
def stSkipW : EngineState :=
  initEngineState { planEmptyW with steps := [mkPlainStep "s1" ["missing"]] } []

/-- Witness for C2: the concrete step depending on the absent id `missing`
is skipped with no iteration, tool call, or file change. -/
theorem unmet_dependency_skips_witness :
    processStep envT ⟨fun _ => []⟩ stSkipW 0 = { stSkipW with
      steps := stSkipW.steps.set 0 { mkPlainStep "s1" ["missing"] with status := .skipped }
      currentStepIndex := 0
      skippedSteps := stSkipW.skippedSteps ++ [(mkPlainStep "s1" ["missing"]).id] } :=
  unmet_dependency_skips_step envT ⟨fun _ => []⟩ stSkipW 0
    (mkPlainStep "s1" ["missing"]) "missing" rfl (by decide) (by decide)

/-! ### The attempt loop: per-step effect lemmas -/

/-- The step-accounting size of an engine state: how many step ids have been
recorded as completed, failed, or skipped. -/
def sum3 (e : EngineState) : Nat :=
  e.completedSteps.length + e.failedSteps.length + e.skippedSteps.length

/-- A terminal step status. -/
def terminalStatus (s : PlanStep) : Prop :=
  s.status = .completed ∨ s.status = .failed ∨ s.status = .skipped

/-- One attempt of a not-yet-completed step: it never touches the steps array
or the skipped list, makes exactly one model round-trip, records exactly one
step id iff it completes the step (successfully or by exhausting retries),
and any completion it reports carries a terminal status. -/
theorem runOneAttempt_effects (env : Env) (oracle : Oracle) (ls : StepLoopState)
    (h : ls.stepCompleted = false) :
    (runOneAttempt env oracle ls).engine.steps = ls.engine.steps ∧
    (runOneAttempt env oracle ls).engine.skippedSteps = ls.engine.skippedSteps ∧
    (runOneAttempt env oracle ls).engine.totalIterations =
      ls.engine.totalIterations + 1 ∧
    sum3 (runOneAttempt env oracle ls).engine = sum3 ls.engine +
      (if (runOneAttempt env oracle ls).stepCompleted then 1 else 0) ∧
    ((runOneAttempt env oracle ls).stepCompleted = true →
      (runOneAttempt env oracle ls).step.status = .completed ∨
        (runOneAttempt env oracle ls).step.status = .failed) := by
  unfold runOneAttempt
  simp only []
  split
  · split
    · -- evaluation succeeded: completedSteps gains one id
      refine ⟨rfl, rfl, rfl, ?_, fun _ => Or.inl rfl⟩
      simp [sum3, List.length_append]
      omega
    · split
      · -- retries exhausted: failedSteps gains one id
        refine ⟨rfl, rfl, rfl, ?_, fun _ => Or.inr rfl⟩
        simp [sum3, List.length_append]
        omega
      · -- retry again: nothing recorded
        refine ⟨rfl, rfl, rfl, ?_, ?_⟩
        · simp [sum3, h]
        · intro hc
          rw [h] at hc
          exact absurd hc (by simp)
  · -- no completion signal and no tool call: nothing recorded
    refine ⟨rfl, rfl, rfl, ?_, ?_⟩
    · simp [sum3, h]
    · intro hc
      rw [h] at hc
      exact absurd hc (by simp)

/-- A completed step exits the attempt loop immediately. -/
theorem attemptLoop_stepCompleted (env : Env) (oracle : Oracle) (fuel : Nat)
    (ls : StepLoopState) (h : ls.stepCompleted = true) :
    attemptLoop env oracle fuel ls = ls := by
  cases fuel with
  | zero => rfl
  | succ f =>
    unfold attemptLoop
    rw [h]
    rfl

/-- The attempt loop on a not-yet-completed step: the steps array and skipped
list are untouched, at most `fuel` model round-trips happen, exactly one step
id is recorded iff the loop completes the step, and a completed loop leaves a
terminal (completed/failed) status on the step. -/
theorem attemptLoop_effects (env : Env) (oracle : Oracle) :
    ∀ (fuel : Nat) (ls : StepLoopState), ls.stepCompleted = false →
      (attemptLoop env oracle fuel ls).engine.steps = ls.engine.steps ∧
      (attemptLoop env oracle fuel ls).engine.skippedSteps = ls.engine.skippedSteps ∧
      (attemptLoop env oracle fuel ls).engine.totalIterations ≤
        ls.engine.totalIterations + fuel ∧
      sum3 (attemptLoop env oracle fuel ls).engine = sum3 ls.engine +
        (if (attemptLoop env oracle fuel ls).stepCompleted then 1 else 0) ∧
      ((attemptLoop env oracle fuel ls).stepCompleted = true →
        (attemptLoop env oracle fuel ls).step.status = .completed ∨
          (attemptLoop env oracle fuel ls).step.status = .failed) := by
  intro fuel
  induction fuel with
  | zero =>
    intro ls h
    refine ⟨rfl, rfl, ?_, ?_, ?_⟩
    · show ls.engine.totalIterations ≤ ls.engine.totalIterations + 0
      omega
    · show sum3 ls.engine = sum3 ls.engine + (if ls.stepCompleted then 1 else 0)
      simp [h]
    · intro hc
      have hc' : ls.stepCompleted = true := hc
      rw [h] at hc'
      exact absurd hc' (by simp)
  | succ f ih =>
    intro ls h
    unfold attemptLoop
    rw [h]
    simp only [Bool.false_eq_true, if_false]
    by_cases hr : maxRetries < ls.step.retryCount
    · rw [if_pos hr]
      refine ⟨rfl, rfl, by omega, by simp [h], ?_⟩
      intro hc
      rw [h] at hc
      exact absurd hc (by simp)
    · rw [if_neg hr]
      obtain ⟨ha1, ha2, ha3, ha4, ha5⟩ := runOneAttempt_effects env oracle ls h
      by_cases hc2 : (runOneAttempt env oracle ls).stepCompleted = true
      · rw [attemptLoop_stepCompleted env oracle f _ hc2]
        rw [hc2, if_pos rfl] at ha4
        exact ⟨ha1, ha2, by omega, by rw [ha4, hc2, if_pos rfl], ha5⟩
      · have hc2' : (runOneAttempt env oracle ls).stepCompleted = false :=
          Bool.eq_false_iff.mpr hc2
        obtain ⟨hb1, hb2, hb3, hb4, hb5⟩ :=
          ih (runOneAttempt env oracle ls) hc2'
        rw [hc2', if_neg (by simp)] at ha4
        refine ⟨by rw [hb1, ha1], by rw [hb2, ha2], by omega,
          by rw [hb4, ha4, Nat.add_zero], hb5⟩

/-- Finalizing a completed step writes it back (with the merged audit
history) at its index. -/
theorem finalizeStep_completed (ls : StepLoopState) (i : Nat)
    (h : ls.stepCompleted = true) :
    finalizeStep ls i = { ls.engine with
      steps := ls.engine.steps.set i
        { ls.step with toolResults := ls.history.flatMap (fun a => a.results) } } := by
  unfold finalizeStep
  simp only []
  rw [h]
  rfl

/-- Finalizing an uncompleted step marks it `failed` and records the id. -/
theorem finalizeStep_not_completed (ls : StepLoopState) (i : Nat)
    (h : ls.stepCompleted = false) :
    finalizeStep ls i = { ls.engine with
      steps := ls.engine.steps.set i
        { ls.step with toolResults := ls.history.flatMap (fun a => a.results)
                       status := .failed }
      failedSteps := ls.engine.failedSteps ++ [ls.step.id]
      evaluationsFailed := ls.engine.evaluationsFailed + 1 } := by
  unfold finalizeStep
  simp only []
  rw [h]
  rfl

/-- One full step-loop iteration at a valid index: the steps array keeps its
length, no other entry changes, the processed entry ends in a terminal
status, exactly one step id is recorded, and at most `maxIterationsPerStep`
model round-trips happen. -/
theorem processStep_effects (env : Env) (oracle : Oracle) (st : EngineState)
    (i : Nat) (hi : i < st.steps.length) :
    (processStep env oracle st i).steps.length = st.steps.length ∧
    (∀ j, j ≠ i → (processStep env oracle st i).steps[j]? = st.steps[j]?) ∧
    (∃ s, (processStep env oracle st i).steps[i]? = some s ∧ terminalStatus s) ∧
    sum3 (processStep env oracle st i) = sum3 st + 1 ∧
    (processStep env oracle st i).totalIterations ≤
      st.totalIterations + maxIterationsPerStep := by
  have hstep : st.steps[i]? = some st.steps[i] := List.getElem?_eq_getElem hi
  rw [processStep_some env oracle st i st.steps[i] hstep]
  by_cases hmet : dependenciesMet
      (st.steps.set i { st.steps[i] with status := .inProgress })
      { st.steps[i] with status := .inProgress } = true
  · rw [processStepAux_run env oracle st i st.steps[i] hmet]
    have hls0 : (⟨{ st with
        steps := st.steps.set i { st.steps[i] with status := .inProgress }
        currentStepIndex := i },
        { st.steps[i] with status := .inProgress }, false, 0, []⟩ :
        StepLoopState).stepCompleted = false := rfl
    obtain ⟨ha1, ha2, ha3, ha4, ha5⟩ :=
      attemptLoop_effects env oracle maxIterationsPerStep _ hls0
    set al := attemptLoop env oracle maxIterationsPerStep
      (⟨{ st with
        steps := st.steps.set i { st.steps[i] with status := .inProgress }
        currentStepIndex := i },
        { st.steps[i] with status := .inProgress }, false, 0, []⟩ :
        StepLoopState) with hal
    have ha1' : al.engine.steps =
        st.steps.set i { st.steps[i] with status := .inProgress } := ha1
    have ha3' : al.engine.totalIterations ≤
        st.totalIterations + maxIterationsPerStep := ha3
    have ha4' : sum3 al.engine = sum3 st +
        (if al.stepCompleted = true then 1 else 0) := ha4
    by_cases hlc : al.stepCompleted = true
    · rw [finalizeStep_completed al i hlc]
      have hsum : sum3 al.engine = sum3 st + 1 := by
        rw [ha4', hlc, if_pos rfl]
      refine ⟨?_, ?_, ?_, ?_, ?_⟩
      · show (al.engine.steps.set i _).length = _
        rw [List.length_set, ha1', List.length_set]
      · intro j hj
        show (al.engine.steps.set i _)[j]? = _
        rw [List.getElem?_set, if_neg (fun hij => hj hij.symm), ha1',
          List.getElem?_set, if_neg (fun hij => hj hij.symm)]
      · refine ⟨{ al.step with toolResults := al.history.flatMap (fun a => a.results) },
          ?_, ?_⟩
        · show (al.engine.steps.set i _)[i]? = _
          rw [List.getElem?_set, if_pos rfl, ha1', List.length_set, if_pos hi]
        · rcases ha5 hlc with hs | hs
          · exact Or.inl hs
          · exact Or.inr (Or.inl hs)
      · show sum3 al.engine = sum3 st + 1
        exact hsum
      · show al.engine.totalIterations ≤ st.totalIterations + maxIterationsPerStep
        exact ha3'
    · have hlc' : al.stepCompleted = false := Bool.eq_false_iff.mpr hlc
      rw [finalizeStep_not_completed al i hlc']
      have hsum : sum3 al.engine = sum3 st := by
        rw [ha4', hlc', if_neg (by simp), Nat.add_zero]
      refine ⟨?_, ?_, ?_, ?_, ?_⟩
      · show (al.engine.steps.set i _).length = _
        rw [List.length_set, ha1', List.length_set]
      · intro j hj
        show (al.engine.steps.set i _)[j]? = _
        rw [List.getElem?_set, if_neg (fun hij => hj hij.symm), ha1',
          List.getElem?_set, if_neg (fun hij => hj hij.symm)]
      · refine ⟨{ al.step with
          toolResults := al.history.flatMap (fun a => a.results)
          status := .failed }, ?_, ?_⟩
        · show (al.engine.steps.set i _)[i]? = _
          rw [List.getElem?_set, if_pos rfl, ha1', List.length_set, if_pos hi]
        · exact Or.inr (Or.inl rfl)
      · show al.engine.completedSteps.length +
          (al.engine.failedSteps ++ [al.step.id]).length +
          al.engine.skippedSteps.length = sum3 st + 1
        simp only [List.length_append, List.length_singleton]
        have hs3 : sum3 al.engine = al.engine.completedSteps.length +
            al.engine.failedSteps.length + al.engine.skippedSteps.length := rfl
        omega
      · show al.engine.totalIterations ≤ st.totalIterations + maxIterationsPerStep
        exact ha3'
  · rw [processStepAux_skip env oracle st i st.steps[i] (Bool.eq_false_iff.mpr hmet)]
    refine ⟨?_, ?_, ?_, ?_, ?_⟩
    · show (st.steps.set i _).length = _
      rw [List.length_set]
    · intro j hj
      show (st.steps.set i _)[j]? = _
      rw [List.getElem?_set, if_neg (fun hij => hj hij.symm)]
    · refine ⟨{ st.steps[i] with status := .skipped }, ?_, Or.inr (Or.inr rfl)⟩
      show (st.steps.set i _)[i]? = _
      rw [List.getElem?_set, if_pos rfl, if_pos hi]
    · show st.completedSteps.length + st.failedSteps.length +
        (st.skippedSteps ++ [st.steps[i].id]).length = sum3 st + 1
      simp only [List.length_append, List.length_singleton]
      have hs3 : sum3 st = st.completedSteps.length + st.failedSteps.length +
          st.skippedSteps.length := rfl
      omega
    · show st.totalIterations ≤ _
      omega

/-! ### C1 — one engine pass leaves no step pending -/

/-- The step loop processed from index `i` with `r` steps remaining: every
entry becomes terminal, each processed step records exactly one id, and
iterations stay bounded. -/
theorem runSteps_invariant (env : Env) (oracle : Oracle) :
    ∀ (r i : Nat) (st : EngineState), i + r = st.steps.length →
      (∀ j, j < i → ∃ s, st.steps[j]? = some s ∧ terminalStatus s) →
      (runSteps env oracle r i st).steps.length = st.steps.length ∧
      (∀ j, j < st.steps.length →
        ∃ s, (runSteps env oracle r i st).steps[j]? = some s ∧ terminalStatus s) ∧
      sum3 (runSteps env oracle r i st) = sum3 st + r ∧
      (runSteps env oracle r i st).totalIterations ≤
        st.totalIterations + maxIterationsPerStep * r := by
  intro r
  induction r with
  | zero =>
    intro i st hlen hterm
    refine ⟨rfl, ?_, ?_, ?_⟩
    · intro j hj
      exact hterm j (by omega)
    · show sum3 st = sum3 st + 0
      omega
    · show st.totalIterations ≤ st.totalIterations + maxIterationsPerStep * 0
      omega
  | succ r ih =>
    intro i st hlen hterm
    have hi : i < st.steps.length := by omega
    obtain ⟨hp1, hp2, hp3, hp4, hp5⟩ := processStep_effects env oracle st i hi
    have hterm' : ∀ j, j < i + 1 →
        ∃ s, (processStep env oracle st i).steps[j]? = some s ∧ terminalStatus s := by
      intro j hj
      by_cases hji : j = i
      · subst hji
        exact hp3
      · obtain ⟨s, hs, hst⟩ := hterm j (by omega)
        exact ⟨s, by rw [hp2 j hji]; exact hs, hst⟩
    have hlen' : (i + 1) + r = (processStep env oracle st i).steps.length := by
      rw [hp1]
      omega
    obtain ⟨hq1, hq2, hq3, hq4⟩ := ih (i + 1) (processStep env oracle st i) hlen' hterm'
    show (runSteps env oracle r (i + 1) (processStep env oracle st i)).steps.length =
      st.steps.length ∧ _
    refine ⟨by rw [hq1, hp1], ?_, ?_, ?_⟩
    · intro j hj
      exact hq2 j (by rw [hp1]; exact hj)
    · show sum3 (runSteps env oracle r (i + 1) (processStep env oracle st i)) =
        sum3 st + (r + 1)
      omega
    · show (runSteps env oracle r (i + 1) (processStep env oracle st i)).totalIterations ≤
        st.totalIterations + maxIterationsPerStep * (r + 1)
      have : maxIterationsPerStep * (r + 1) =
          maxIterationsPerStep * r + maxIterationsPerStep := by ring
      omega

/-- If every step of a list is terminal, the completed/failed/skipped counts
partition its length. -/
theorem countP_three_partition (l : List PlanStep)
    (h : ∀ s ∈ l, terminalStatus s) :
    l.countP (fun s => s.status == .completed) +
      l.countP (fun s => s.status == .failed) +
      l.countP (fun s => s.status == .skipped) = l.length := by
  induction l with
  | nil => rfl
  | cons x xs ih =>
    have hx := h x (by simp)
    have hxs := ih (fun s hs => h s (by simp [hs]))
    rw [List.countP_cons, List.countP_cons, List.countP_cons, List.length_cons]
    rcases hx with hs | hs | hs <;> rw [hs] <;> simp <;> omega

/-- **C1.** After one engine pass over any plan, every step carries a
terminal status — `completed`, `failed` or `skipped`; none is left `pending`
or `in_progress` — and the recorded completed + failed + skipped step ids,
as well as the status counts, equal the total number of steps. -/
theorem engine_pass_terminal (env : Env) (oracle : Oracle)
    (plan : ExecutionPlan) (files : List FileItem) :
    (runEngine env oracle plan files).steps.length = plan.steps.length ∧
    (∀ s ∈ (runEngine env oracle plan files).steps,
      s.status = .completed ∨ s.status = .failed ∨ s.status = .skipped) ∧
    (runEngine env oracle plan files).completedSteps.length +
      (runEngine env oracle plan files).failedSteps.length +
      (runEngine env oracle plan files).skippedSteps.length = plan.steps.length ∧
    (runEngine env oracle plan files).steps.countP (fun s => s.status == .completed) +
      (runEngine env oracle plan files).steps.countP (fun s => s.status == .failed) +
      (runEngine env oracle plan files).steps.countP (fun s => s.status == .skipped) =
      plan.steps.length := by
  obtain ⟨h1, h2, h3, h4⟩ := runSteps_invariant env oracle plan.steps.length 0
    (initEngineState plan files)
    (by show 0 + plan.steps.length = plan.steps.length; omega)
    (fun j hj => absurd hj (by omega))
  have H1 : (runEngine env oracle plan files).steps.length = plan.steps.length := h1
  have H2 : ∀ j, j < plan.steps.length →
      ∃ s, (runEngine env oracle plan files).steps[j]? = some s ∧ terminalStatus s :=
    fun j hj => h2 j hj
  have H3 : sum3 (runEngine env oracle plan files) = 0 + plan.steps.length := h3
  have hmem : ∀ s ∈ (runEngine env oracle plan files).steps, terminalStatus s := by
    intro s hs
    obtain ⟨n, hn, hsn⟩ := List.mem_iff_getElem.mp hs
    have hn' : n < plan.steps.length := by omega
    obtain ⟨s', hs', hst⟩ := H2 n hn'
    rw [List.getElem?_eq_getElem hn] at hs'
    rw [← hsn]
    rw [Option.some.injEq] at hs'
    rw [hs']
    exact hst
  refine ⟨H1, hmem, ?_, ?_⟩
  · have hs3 : sum3 (runEngine env oracle plan files) =
        (runEngine env oracle plan files).completedSteps.length +
        (runEngine env oracle plan files).failedSteps.length +
        (runEngine env oracle plan files).skippedSteps.length := rfl
    omega
  · rw [countP_three_partition _ hmem, H1]

/-- Witness for C1: the terminal-status guarantee applied to the concrete
retry plan (whose single step completes), discharging the membership
hypothesis. -/
theorem engine_pass_terminal_witness :
    ({ rawStepW with toolResults := [], status := .failed } ∈
      (runEngine envT ⟨fun _ => []⟩ planW2 []).steps) ∧
    (({ rawStepW with toolResults := [], status := .failed } : PlanStep).status =
        .completed ∨
      ({ rawStepW with toolResults := [], status := .failed } : PlanStep).status =
        .failed ∨
      ({ rawStepW with toolResults := [], status := .failed } : PlanStep).status =
        .skipped) :=
  ⟨by decide, (engine_pass_terminal envT ⟨fun _ => []⟩ planW2 []).2.1
    { rawStepW with toolResults := [], status := .failed } (by decide)⟩

/-! ### C4 — attempts are scored on their own results only -/

/-- A step executor that fails its first attempt (an `edit_file` on an
unknown id) and succeeds on the second (a `create_file` plus the
`complete_step` signal). -/
def oracle4 : Oracle := ⟨fun k =>
  if k = 0 then [.functionCall (.editFile "nope" "x" "")]
  else if k = 1 then [.functionCall (.createFile "a.txt" "hello" "/"),
                      .functionCall (.completeStep "step_1" "done")]
  else []⟩

/-- The one-step default plan used for the retry scenario. -/
def plan4 : ExecutionPlan := createDefaultPlan "write a file"

/-- The retry-scenario engine run. -/
def run4 : EngineState := runEngine envT oracle4 plan4 []

/-- **C4.** Every attempt clears the step's `toolResults` first, so the
attempt's outcome — and the evaluation that decides the step's status — is
computed only from the current attempt's results, independent of whatever
results the step carried before (first conjunct: the attempt is invariant in
the incoming `toolResults`).  In the concrete retry scenario — first attempt
has one failing tool call, second attempt is all-success — the step ends
`completed` with `retryCount = 1` and a perfect evaluation
`{success: true, score: 100}` scored on the second attempt alone, while the
merged audit `toolResults` still holds all 3 results of both attempts. -/
theorem attempt_scored_on_own_results (env : Env) (oracle : Oracle) :
    (∀ (e : EngineState) (s : PlanStep) (b : Bool) (it : Nat)
        (hist : List AttemptRecord) (xs ys : List ToolResult),
      runOneAttempt env oracle ⟨e, { s with toolResults := xs }, b, it, hist⟩ =
        runOneAttempt env oracle ⟨e, { s with toolResults := ys }, b, it, hist⟩) ∧
    run4.steps.map (fun s => (s.status, s.retryCount, s.evaluation,
      s.toolResults.length)) =
      [(.completed, 1, some ⟨true, 100, []⟩, 3)] ∧
    run4.totalIterations = 2 ∧
    run4.completedSteps = ["step_1"] :=
  ⟨fun _ _ _ _ _ _ _ => rfl, by decide, by decide, by decide⟩

/-! ### C5 — iteration bounds -/

/-- A step executor returning no output items at all: every attempt makes a
model round-trip, invokes no tool and signals nothing. -/
def oracleEmpty : Oracle := ⟨fun _ => []⟩

/-- Under the empty-response executor, one attempt only clears `toolResults`
and counts the round-trip. -/
theorem runOneAttempt_emptyOracle (env : Env) (ls : StepLoopState) :
    runOneAttempt env oracleEmpty ls =
      ⟨{ ls.engine with totalIterations := ls.engine.totalIterations + 1 },
        { ls.step with toolResults := [] }, ls.stepCompleted,
        ls.stepIterations + 1, ls.history⟩ := rfl

/-- Replacing `toolResults` by `[]` is the identity on a step that already
has no tool results. -/
theorem setToolResults_self (s : PlanStep) (h : s.toolResults = []) :
    ({ s with toolResults := [] } : PlanStep) = s := by
  rw [← h]

/-- Under the empty-response executor, a fresh attempt loop burns its whole
fuel, one round-trip per unit, and never completes the step. -/
theorem attemptLoop_emptyOracle (env : Env) :
    ∀ (fuel : Nat) (ls : StepLoopState), ls.stepCompleted = false →
      ls.step.retryCount = 0 → ls.step.toolResults = [] →
      attemptLoop env oracleEmpty fuel ls =
        ⟨{ ls.engine with totalIterations := ls.engine.totalIterations + fuel },
          ls.step, false, ls.stepIterations + fuel, ls.history⟩ := by
  intro fuel
  induction fuel with
  | zero =>
    intro ls h hr htr
    rw [← h]
    rfl
  | succ f ih =>
    intro ls h hr htr
    unfold attemptLoop
    rw [h]
    simp only [Bool.false_eq_true, if_false]
    rw [if_neg (by rw [hr]; omega)]
    rw [runOneAttempt_emptyOracle]
    rw [ih ⟨{ ls.engine with totalIterations := ls.engine.totalIterations + 1 },
      { ls.step with toolResults := [] }, ls.stepCompleted,
      ls.stepIterations + 1, ls.history⟩ h (by show ls.step.retryCount = 0; exact hr)
      rfl]
    show (⟨{ ls.engine with
        totalIterations := ls.engine.totalIterations + 1 + f },
      { ls.step with toolResults := [] }, false,
      ls.stepIterations + 1 + f, ls.history⟩ : StepLoopState) = _
    rw [show ls.engine.totalIterations + 1 + f =
        ls.engine.totalIterations + (f + 1) from by omega,
      show ls.stepIterations + 1 + f = ls.stepIterations + (f + 1) from by omega,
      setToolResults_self ls.step htr]

/-- Under the empty-response executor, a dependency-free fresh step consumes
exactly `maxIterationsPerStep` iterations (and ends `failed`), leaving the
other entries of the steps array unchanged. -/
theorem processStep_emptyOracle (env : Env) (st : EngineState) (i : Nat)
    (step0 : PlanStep) (hstep : st.steps[i]? = some step0)
    (hdeps : step0.dependencies = []) (hretry : step0.retryCount = 0)
    (htr : step0.toolResults = []) :
    (processStep env oracleEmpty st i).totalIterations =
      st.totalIterations + maxIterationsPerStep ∧
    (processStep env oracleEmpty st i).steps.length = st.steps.length ∧
    (∀ j, j ≠ i → (processStep env oracleEmpty st i).steps[j]? = st.steps[j]?) := by
  have hmet : dependenciesMet
      (st.steps.set i { step0 with status := .inProgress })
      { step0 with status := .inProgress } = true := by
    show ({ step0 with status := .inProgress } : PlanStep).dependencies.all _ = true
    show step0.dependencies.all _ = true
    rw [hdeps]
    rfl
  rw [processStep_some env oracleEmpty st i step0 hstep,
    processStepAux_run env oracleEmpty st i step0 hmet]
  rw [attemptLoop_emptyOracle env maxIterationsPerStep _ rfl
    (by show step0.retryCount = 0; exact hretry)
    (by show step0.toolResults = []; exact htr)]
  rw [finalizeStep_not_completed _ i rfl]
  refine ⟨rfl, ?_, ?_⟩
  · show ((st.steps.set i _).set i _).length = _
    rw [List.length_set, List.length_set]
  · intro j hj
    show ((st.steps.set i _).set i _)[j]? = _
    rw [List.getElem?_set, if_neg (fun hij => hj hij.symm),
      List.getElem?_set, if_neg (fun hij => hj hij.symm)]

/-- A fresh dependency-free `n`-step plan. -/
def simplePlanN (n : Nat) : ExecutionPlan :=
  { planEmptyW with steps := (List.range n).map (fun k => mkPlainStep (Nat.repr k) []) }

/-- The step loop over dependency-free fresh steps consumes exactly
`maxIterationsPerStep` iterations per step. -/
theorem runSteps_emptyOracle (env : Env) :
    ∀ (r i : Nat) (st : EngineState),
      (∀ j, i ≤ j → j < i + r → ∃ s, st.steps[j]? = some s ∧
        s.dependencies = [] ∧ s.retryCount = 0 ∧ s.toolResults = []) →
      (runSteps env oracleEmpty r i st).totalIterations =
        st.totalIterations + maxIterationsPerStep * r := by
  intro r
  induction r with
  | zero =>
    intro i st _
    show st.totalIterations = st.totalIterations + maxIterationsPerStep * 0
    omega
  | succ r ih =>
    intro i st hsteps
    obtain ⟨s0, hs0, hdep0, hr0, htr0⟩ := hsteps i (by omega) (by omega)
    obtain ⟨he1, he2, he3⟩ := processStep_emptyOracle env st i s0 hs0 hdep0 hr0 htr0
    have hnext : ∀ j, i + 1 ≤ j → j < (i + 1) + r →
        ∃ s, (processStep env oracleEmpty st i).steps[j]? = some s ∧
          s.dependencies = [] ∧ s.retryCount = 0 ∧ s.toolResults = [] := by
      intro j hj1 hj2
      obtain ⟨s, hs, hprops⟩ := hsteps j (by omega) (by omega)
      exact ⟨s, by rw [he3 j (by omega)]; exact hs, hprops⟩
    show (runSteps env oracleEmpty r (i + 1) (processStep env oracleEmpty st i)).totalIterations =
      st.totalIterations + maxIterationsPerStep * (r + 1)
    rw [ih (i + 1) (processStep env oracleEmpty st i) hnext, he1]
    ring

/-- On the `n`-step fresh plan with the empty-response executor, the engine
makes exactly `5 n` attempt iterations. -/
theorem totalIterations_simplePlanN (n : Nat) :
    (runEngine envT oracleEmpty (simplePlanN n) []).totalIterations =
      maxIterationsPerStep * n := by
  have hlen : (simplePlanN n).steps.length = n := by
    rw [simplePlanN]
    simp
  show (runSteps envT oracleEmpty (simplePlanN n).steps.length 0
    (initEngineState (simplePlanN n) [])).totalIterations = maxIterationsPerStep * n
  rw [hlen]
  rw [runSteps_emptyOracle envT n 0 (initEngineState (simplePlanN n) []) ?_]
  · show 0 + maxIterationsPerStep * n = maxIterationsPerStep * n
    omega
  · intro j hj1 hj2
    refine ⟨mkPlainStep (Nat.repr j) [], ?_, rfl, rfl, rfl⟩
    show ((List.range n).map (fun k => mkPlainStep (Nat.repr k) []))[j]? = _
    rw [List.getElem?_map, List.getElem?_range (by omega)]
    rfl

/-- **C5 (counterexample).** There is no plan-size-independent ceiling on the
engine's total attempt iterations: for every candidate bound `B`, the fresh
`(B+1)`-step plan with an executor that returns no items makes `5·(B+1) > B`
iterations.  The engine enforces only the per-step bounds. -/
theorem no_overall_iteration_ceiling :
    ¬ ∃ B : Nat, ∀ n : Nat,
      (runEngine envT oracleEmpty (simplePlanN n) []).totalIterations ≤ B := by
  rintro ⟨B, hB⟩
  have h := hB (B + 1)
  rw [totalIterations_simplePlanN] at h
  rw [maxIterationsPerStep] at h
  omega

/-- **C5 (amended).** The engine enforces only the per-step bounds
`maxIterationsPerStep = 5` and `maxRetries = 2`; the total number of attempt
iterations of a pass is bounded by `maxIterationsPerStep ×` the number of
plan steps — a bound that grows with the plan, not an overall constant
`maxIterations` ceiling. -/
theorem engine_iterations_per_step_bounded (env : Env) (oracle : Oracle)
    (plan : ExecutionPlan) (files : List FileItem) :
    (runEngine env oracle plan files).totalIterations ≤
      maxIterationsPerStep * plan.steps.length := by
  obtain ⟨-, -, -, h4⟩ := runSteps_invariant env oracle plan.steps.length 0
    (initEngineState plan files)
    (by show 0 + plan.steps.length = plan.steps.length; omega)
    (fun j hj => absurd hj (by omega))
  have H4 : (runEngine env oracle plan files).totalIterations ≤
      0 + maxIterationsPerStep * plan.steps.length := h4
  omega

end Hgland
